import Mathlib

/-! # Panasonic IP camera client (`autogo/devices/camera.go`)

A shallow embedding of `camera.go` and theorems about it.

Conventions of the embedding:

* a Go `[]byte`, and a Go `string` holding data from the network, is a list of
  byte values (`Bytes`); string literals of the source are written with `lit`;
* Go `int` is 64 bits wide and `uint` is 64 bits wide; arithmetic that can
  overflow is reduced with `wrapInt` / `wrapUint`;
* a run-time panic (slice bounds, index out of range) is an explicit outcome;
* the HTTP peer is an input: the result of the request, and for a streamed
  body the list of results of the successive `Read` calls.
-/

set_option maxRecDepth 100000

namespace AutoGo

/-! ## Bytes and machine integers -/

/-- Byte sequence: a Go `[]byte`, or a Go `string` seen as its bytes. -/
abbrev Bytes := List Nat

/-- The bytes of an ASCII string literal of the source. -/
def lit (s : String) : Bytes := s.data.map Char.toNat

/-- Reduction of an integer to the range of Go `int` (64 bit, two's complement). -/
def wrapInt (x : Int) : Int := (x + 2 ^ 63) % 2 ^ 64 - 2 ^ 63

/-- Reduction of a natural number to the range of Go `uint` (64 bit). -/
def wrapUint (x : Int) : Nat := (x % 2 ^ 64).toNat

/-! ## The parts of Go's `bytes`, `strings`, `strconv` and `unicode/utf8` that the source calls -/

/-- `bytes.HasPrefix(s, p)` / `strings.HasPrefix(s, p)`. -/
def HasPrefix (s p : Bytes) : Bool := p.isPrefixOf s

/-- `bytes.Index(s, sep)`: index of the first instance of `sep` in `s`;
`none` stands for Go's `-1`. -/
def Index : Bytes → Bytes → Option Nat
  | [], sep => if sep = [] then some 0 else none
  | b :: t, sep =>
    if HasPrefix (b :: t) sep then some 0 else (Index t sep).map (· + 1)

/-- Width in bytes of the first UTF-8 sequence of `p`, as `utf8.DecodeRune`
reports it: an invalid or truncated encoding has width 1, the empty input 0. -/
def runeSize : Bytes → Nat
  | [] => 0
  | p0 :: rest =>
    if p0 < 0xC2 then 1
    else if p0 < 0xE0 then
      match rest with
      | b1 :: _ => if 0x80 ≤ b1 ∧ b1 ≤ 0xBF then 2 else 1
      | _ => 1
    else if p0 < 0xF0 then
      let lo := if p0 = 0xE0 then 0xA0 else 0x80
      let hi := if p0 = 0xED then 0x9F else 0xBF
      match rest with
      | b1 :: b2 :: _ =>
        if lo ≤ b1 ∧ b1 ≤ hi ∧ 0x80 ≤ b2 ∧ b2 ≤ 0xBF then 3 else 1
      | _ => 1
    else if p0 < 0xF5 then
      let lo := if p0 = 0xF0 then 0x90 else 0x80
      let hi := if p0 = 0xF4 then 0x8F else 0xBF
      match rest with
      | b1 :: b2 :: b3 :: _ =>
        if lo ≤ b1 ∧ b1 ≤ hi ∧ 0x80 ≤ b2 ∧ b2 ≤ 0xBF ∧ 0x80 ≤ b3 ∧ b3 ≤ 0xBF then 4 else 1
      | _ => 1
    else 1

/-- Loop of `explode`: cuts `s` into its UTF-8 sequences. Each round consumes
at least one byte, so `s.length` rounds are enough. -/
def explodeLoop : Nat → Bytes → List Bytes
  | 0, _ => []
  | fuel + 1, s =>
    if s = [] then [] else s.take (runeSize s) :: explodeLoop fuel (s.drop (runeSize s))

/-- `utf8.RuneCount(s)`. -/
def RuneCount (s : Bytes) : Nat := (explodeLoop s.length s).length

/-- Loop of `bytes.Count` for a non-empty separator: find the next instance,
count it, continue behind it. -/
def countLoop (sep : Bytes) : Nat → Bytes → Nat
  | 0, _ => 0
  | fuel + 1, s =>
    match Index s sep with
    | none => 0
    | some i => countLoop sep fuel (s.drop (i + sep.length)) + 1

/-- `bytes.Count(s, sep)`: number of non-overlapping instances of `sep` in `s`;
for the empty separator, the number of UTF-8 sequences of `s` plus one. -/
def Count (s sep : Bytes) : Nat :=
  if sep = [] then RuneCount s + 1 else countLoop sep (s.length + 1) s

/-- Loop of `bytes.Split` for a non-empty separator. -/
def splitLoop (sep : Bytes) : Nat → Bytes → List Bytes
  | 0, s => [s]
  | fuel + 1, s =>
    match Index s sep with
    | none => [s]
    | some i => s.take i :: splitLoop sep fuel (s.drop (i + sep.length))

/-- Go slice of byte slices: its elements and its capacity. Elements between
the length and the capacity are the zero value `nil`. -/
structure Slices where
  elems : List Bytes
  cap : Nat

/-- `bytes.Split(s, sep)`. For a non-empty separator the result has as many
elements as its capacity; for the empty separator the result holds the UTF-8
sequences of `s` in an array of `len(s)` elements. -/
def Split (s sep : Bytes) : Slices :=
  if sep = [] then ⟨explodeLoop s.length s, s.length⟩
  else ⟨splitLoop sep (s.length + 1) s, (splitLoop sep (s.length + 1) s).length⟩

/-- The slice expression `a[1:hi]` on a slice of byte slices; `none` is the
run-time panic for bounds out of range. -/
def sliceFrom1 (a : Slices) (hi : Nat) : Option (List Bytes) :=
  if 1 ≤ hi ∧ hi ≤ a.cap then
    some (((a.elems ++ List.replicate (a.cap - a.elems.length) []).take hi).drop 1)
  else none

/-- Membership of a byte in the cutset `" \r"`. -/
def inCutset (b : Nat) : Bool := b == 32 || b == 13

/-- `strings.Trim(s, " \r")`: `s` without its leading and trailing spaces and
carriage returns. -/
def Trim (s : Bytes) : Bytes := ((s.dropWhile inCutset).reverse.dropWhile inCutset).reverse

/-- Value of a run of decimal digits, `none` when a byte is not a digit. -/
def parseDigits : Bytes → Nat → Option Nat
  | [], acc => some acc
  | b :: t, acc => if 48 ≤ b ∧ b ≤ 57 then parseDigits t (acc * 10 + (b - 48)) else none

/-- `strconv.Atoi(s)` for a 64 bit `int`: an optional sign and at least one
decimal digit, the value within the range of `int`; `none` is a non-nil error. -/
def Atoi (s : Bytes) : Option Int :=
  match s with
  | [] => none
  | b :: t =>
    if b = 45 then
      if t = [] then none
      else (parseDigits t 0).bind fun n => if n ≤ 2 ^ 63 then some (-(n : Int)) else none
    else if b = 43 then
      if t = [] then none
      else (parseDigits t 0).bind fun n => if n < 2 ^ 63 then some (n : Int) else none
    else (parseDigits (b :: t) 0).bind fun n => if n < 2 ^ 63 then some (n : Int) else none

/-! ## `StreamFrames` -/

/-- The `err` result of one `Read` on the response body. -/
inductive ReadErr where
  | nil
  | EOF
  | other
  deriving DecidableEq, Repr

/-- Result of one `res.Body.Read(chunk)`: the bytes `chunk[0:n]` and `err`. -/
structure ReadResult where
  data : Bytes
  err : ReadErr
  deriving DecidableEq, Repr

/-- What a call of `StreamFrames` does: it returns frames and a nil error,
returns a non-nil error (and nil frames), panics, or is still waiting for a
`Read` when the modelled reads are used up. -/
inductive Outcome where
  | ok (frames : List Bytes)
  | error (msg : String)
  | panic
  | pending
  deriving DecidableEq, Repr

/-- Lines 101-114: the value of `contentLength` after the scan of the lines. -/
def scanContentLength : List Bytes → Int
  | [] => -1
  | l :: ls =>
    if HasPrefix (Trim l) (lit "Content-length: ") then
      match Atoi ((Trim l).drop 16) with
      | none => -1
      | some v => v
    else scanContentLength ls

/-- What the loop body (lines 101-123) does with one part. -/
inductive PartResult where
  | skip
  | frame (jpeg : Bytes)
  | panic
  deriving DecidableEq, Repr

/-- Lines 101-123 for one candidate part. -/
def extractPart (part : Bytes) : PartResult :=
  let contentLength := scanContentLength (Split part (lit "\n")).elems
  if contentLength = -1 then .skip
  else
    match Index part (lit "\n\r\n") with
    | none => .skip
    | some sep =>
      let hi := wrapInt (wrapInt ((sep : Int) + 3) + contentLength)
      if hi ≥ (part.length : Int) then .skip
      else if (sep : Int) + 3 ≤ hi then .frame ((part.take hi.toNat).drop (sep + 3))
      else .panic

/-- Lines 100-126: the loop over the candidate parts, `frames` being the
frames appended so far. -/
def collectFrames : List Bytes → List Bytes → Outcome
  | [], frames => .ok frames
  | part :: rest, frames =>
    match extractPart part with
    | .skip => collectFrames rest frames
    | .frame jpeg => collectFrames rest (frames ++ [jpeg])
    | .panic => .panic

/-- Lines 95-126: the branch taken once the boundary has occurred often enough. -/
def framesOfBuffer (boundary : Bytes) (count : Nat) (buf : Bytes) : Outcome :=
  match sliceFrom1 (Split buf boundary) (wrapUint ((count : Int) + 1)) with
  | none => .panic
  | some multipart => collectFrames multipart []

/-- Lines 87-138: the read loop with the state of the body reader made
explicit. `buf` holds the bytes accumulated so far, the list the results of the
coming `Read` calls. Returned are what the loop does and the results of the
`Read` calls that it has not made. -/
def readLoopRun (boundary : Bytes) (count : Nat) :
    Bytes → List ReadResult → Outcome × List ReadResult
  | _, [] => (.pending, [])
  | buf, r :: rs =>
    if (Count (buf ++ r.data) boundary : Int) ≥ wrapInt (wrapInt (count : Int) + 1) then
      (framesOfBuffer boundary count (buf ++ r.data), rs)
    else
      match r.err with
      | .EOF => (.ok [], rs)
      | .other => (.error "Failed to read response", rs)
      | .nil => readLoopRun boundary count (buf ++ r.data) rs

/-- What the read loop of lines 87-138 does: the first component of
`readLoopRun`. -/
def readLoop (boundary : Bytes) (count : Nat) (buf : Bytes) (reads : List ReadResult) :
    Outcome :=
  (readLoopRun boundary count buf reads).1

/-- The constant `mjpegContentTypePrefix`. -/
def mjpegContentTypePrefix : Bytes := lit "multipart/x-mixed-replace; boundary="

/-- Result of the HTTP exchange of `StreamFrames`: `http.NewRequest` fails,
`client.Do` fails, or a response arrives with a status code, a `Content-Type`
header and a body that is read piecewise. -/
inductive StreamExchange where
  | requestError (msg : String)
  | doError (msg : String)
  | response (status : Nat) (contentType : Bytes) (body : List ReadResult)

/-- `(*PanasonicIPCam).StreamFrames(count)` with the state of the body reader
made explicit: what the call does, and the results of the `Read` calls on the
body that it has not made. -/
def runStreamFrames (count : Nat) : StreamExchange → Outcome × List ReadResult
  | .requestError msg => (.error msg, [])
  | .doError msg => (.error msg, [])
  | .response status contentType body =>
    if status ≠ 200 then (.error "Failed to connect to stream", body)
    else if !HasPrefix contentType mjpegContentTypePrefix then
      (.error "Camera didn't return a stream", body)
    else readLoopRun (contentType.drop mjpegContentTypePrefix.length) count [] body

/-- `(*PanasonicIPCam).StreamFrames(count)`: what the call does, the first
component of `runStreamFrames`. -/
def StreamFrames (count : Nat) (ex : StreamExchange) : Outcome :=
  (runStreamFrames count ex).1

/-! ## Commands -/

/-- The struct `PanasonicIPCam`. -/
structure PanasonicIPCam where
  ipAddr : Bytes
  name : Bytes
  deriving DecidableEq, Repr

/-- Result of one `http.Get`: the call fails, or a response with a status code
arrives. -/
inductive GetResult where
  | failed (msg : String)
  | status (code : Nat)
  deriving DecidableEq, Repr

/-- The network as the commands see it: what `http.Get` yields for a URL,
given the URLs requested before it. -/
abbrev Peer := List Bytes → Bytes → GetResult

/-- What a command method does: it returns an `error` value (`none` is the nil
error) or panics; `sent` lists the URLs passed to `http.Get` so far. -/
inductive CmdResult where
  | returned (err : Option String) (sent : List Bytes)
  | panic (sent : List Bytes)
  deriving DecidableEq, Repr

/-- The URL that `sendCommand` requests for the command `cmd`. -/
def commandURL (c : PanasonicIPCam) (cmd : Bytes) : Bytes :=
  lit "http://" ++ c.ipAddr ++ lit "/cgi-bin/aw_ptz?cmd=%23" ++ cmd ++ lit "&res=1"

/-- `(*PanasonicIPCam).sendCommand(cmd)`, after the requests `sent`. -/
def sendCommand (c : PanasonicIPCam) (cmd : Bytes) (peer : Peer) (sent : List Bytes) :
    CmdResult :=
  match peer sent (commandURL c cmd) with
  | .failed msg => .returned (some msg) (sent ++ [commandURL c cmd])
  | .status code =>
    if code ≠ 200 then .returned (some "Command rejected by camera") (sent ++ [commandURL c cmd])
    else .returned none (sent ++ [commandURL c cmd])

/-- The type `PanTiltAction` is `uint`; its named constants follow. -/
abbrev PanTiltAction := Nat

def PanTiltStop : PanTiltAction := 0
def PanTiltUp : PanTiltAction := 1
def PanTiltDown : PanTiltAction := 2
def PanTiltLeft : PanTiltAction := 3
def PanTiltRight : PanTiltAction := 4
def PanTiltUpLeft : PanTiltAction := 5
def PanTiltUpRight : PanTiltAction := 6
def PanTiltDownLeft : PanTiltAction := 7
def PanTiltDownRight : PanTiltAction := 8

/-- The table `codes` of `panTiltActionCode`. -/
def codes : List Bytes :=
  [lit "5050", lit "5075", lit "5025", lit "2550", lit "7550",
   lit "2575", lit "7575", lit "2525", lit "7525"]

/-- The table `slowCodes` of `panTiltActionCode`. -/
def slowCodes : List Bytes :=
  [lit "5050", lit "5065", lit "5035", lit "3550", lit "6550",
   lit "3565", lit "6565", lit "3535", lit "6535"]

/-- `panTiltActionCode(action, slow)`; `none` is the index-out-of-range panic. -/
def panTiltActionCode (action : PanTiltAction) (slow : Bool) : Option Bytes :=
  if slow then slowCodes.get? action else codes.get? action

/-- `(*PanasonicIPCam).DoPanTilt(action)`. -/
def DoPanTilt (c : PanasonicIPCam) (action : PanTiltAction) (peer : Peer)
    (sent : List Bytes) : CmdResult :=
  match panTiltActionCode action false with
  | none => .panic sent
  | some code => sendCommand c (lit "PTS" ++ code) peer sent

/-- `(*PanasonicIPCam).PanTiltTimed(action, duration)`: the result of the first
`DoPanTilt` is dropped, `time.Sleep` changes nothing that is modelled. -/
def PanTiltTimed (c : PanasonicIPCam) (action : PanTiltAction) (_duration : Nat)
    (peer : Peer) (sent : List Bytes) : CmdResult :=
  match DoPanTilt c action peer sent with
  | .panic sent1 => .panic sent1
  | .returned _ sent1 => DoPanTilt c PanTiltStop peer sent1

/-- `(*PanasonicIPCam).GoHome()`. -/
def GoHome (c : PanasonicIPCam) (peer : Peer) (sent : List Bytes) : CmdResult :=
  sendCommand c (lit "APC80008000") peer sent

/-- Digit loop of `fmt` for an unsigned integer in base 10: the digits are
written from the least significant one, in front of `acc`. -/
def fmtDigits : Nat → Nat → Bytes → Bytes
  | 0, _, acc => acc
  | fuel + 1, u, acc =>
    if u ≥ 10 then fmtDigits fuel (u / 10) ((48 + u % 10) :: acc) else (48 + u) :: acc

/-- `fmt.Sprintf("%02d", u)` for a `uint` value `u`: the decimal digits of `u`
(at most 20 of them), padded with zeros on the left to two digits. -/
def Sprintf02d (u : Nat) : Bytes :=
  List.replicate (2 - (fmtDigits 20 u []).length) 48 ++ fmtDigits 20 u []

/-- The command string that `ExecutePreset(id)` builds; `id - 1` is `uint`
arithmetic. -/
def presetCommand (id : Nat) : Bytes := lit "R" ++ Sprintf02d (wrapUint ((id : Int) - 1))

/-- `(*PanasonicIPCam).ExecutePreset(id)`. -/
def ExecutePreset (c : PanasonicIPCam) (id : Nat) (peer : Peer) (sent : List Bytes) :
    CmdResult :=
  sendCommand c (presetCommand id) peer sent

/-- The type `ZoomAction` is `uint`; its named constants follow. -/
abbrev ZoomAction := Nat

def ZoomStop : ZoomAction := 0
def ZoomIn : ZoomAction := 1
def ZoomOut : ZoomAction := 2

/-- `zoomActionCode(action, slow)`. -/
def zoomActionCode (action : ZoomAction) (slow : Bool) : Bytes :=
  if action = ZoomStop then lit "50"
  else if slow then
    if action = ZoomIn then lit "70" else lit "30"
  else
    if action = ZoomIn then lit "80" else lit "20"

/-- `(*PanasonicIPCam).DoZoom(action)`. -/
def DoZoom (c : PanasonicIPCam) (action : ZoomAction) (peer : Peer) (sent : List Bytes) :
    CmdResult :=
  sendCommand c (lit "Z" ++ zoomActionCode action false) peer sent

/-- `(*PanasonicIPCam).ZoomTimed(action, duration)`. -/
def ZoomTimed (c : PanasonicIPCam) (action : ZoomAction) (_duration : Nat)
    (peer : Peer) (sent : List Bytes) : CmdResult :=
  match DoZoom c action peer sent with
  | .panic sent1 => .panic sent1
  | .returned _ sent1 => DoZoom c ZoomStop peer sent1

/-! ## `NewPanasonicIPCam` -/

/-- Result of the HTTP exchange of `NewPanasonicIPCam`: `http.NewRequest`
fails, `client.Do` fails, or a response arrives with a status code and the
bytes that `buf.ReadFrom(res.Body)` collects. -/
inductive ProbeExchange where
  | requestError (msg : String)
  | doError (msg : String)
  | response (status : Nat) (body : Bytes)

/-- Lines 43-50: the scan of the lines for the title; `none` is the nil
pointer `title`. -/
def scanTitle : List Bytes → Option Bytes
  | [] => none
  | p :: ps =>
    if HasPrefix p (lit "cam_title=") then some (Trim (p.drop 10)) else scanTitle ps

/-- `NewPanasonicIPCam(ipAddr)`. -/
def NewPanasonicIPCam (ipAddr : Bytes) : ProbeExchange → Except String PanasonicIPCam
  | .requestError msg => .error msg
  | .doError msg => .error msg
  | .response status body =>
    if status ≠ 200 then .error "Invalid IP address"
    else
      match scanTitle (Split body (lit "\n")).elems with
      | none => .error "Error fetching cam details"
      | some t => .ok { ipAddr := ipAddr, name := t }

/-- `(*PanasonicIPCam).Name()`. -/
def PanasonicIPCam.Name (c : PanasonicIPCam) : Bytes := c.name

/-- The buffer contents that a run of reads adds up to. -/
def accumulate : List ReadResult → Bytes
  | [] => []
  | r :: rs => r.data ++ accumulate rs

/-! ## Sample exchanges -/

/-- `Content-Type` header announcing the boundary token `BOUNDARY`. -/
def sampleContentType : Bytes := mjpegContentTypePrefix ++ lit "BOUNDARY"

/-- Three parts between four boundaries; each part is its `Content-length`
line, the separator and the payload, the payload ending the part. -/
def exactBody : Bytes :=
  lit "BOUNDARYContent-length: 3\n\r\nabcBOUNDARYContent-length: 2\n\r\ndeBOUNDARYContent-length: 1\n\r\nfBOUNDARY"

/-- Three parts between four boundaries, as a camera sends them: a line break
follows each boundary and each payload. -/
def paddedBody : Bytes :=
  lit "BOUNDARY\r\nContent-length: 3\r\n\r\nabc\r\nBOUNDARY\r\nContent-length: 2\r\n\r\nde\r\nBOUNDARY\r\nContent-length: 1\r\n\r\nf\r\nBOUNDARY"

/-- As `paddedBody`, the second part declaring more bytes than it holds. -/
def oversizedBody : Bytes :=
  lit "BOUNDARY\r\nContent-length: 3\r\n\r\nabc\r\nBOUNDARY\r\nContent-length: 50\r\n\r\nde\r\nBOUNDARY\r\nContent-length: 1\r\n\r\nf\r\nBOUNDARY"

/-- As `paddedBody`, the second part declaring the largest `int` as its length. -/
def hugeLengthBody : Bytes :=
  lit "BOUNDARY\r\nContent-length: 3\r\n\r\nabc\r\nBOUNDARY\r\nContent-length: 9223372036854775807\r\n\r\nde\r\nBOUNDARY\r\nContent-length: 1\r\n\r\nf\r\nBOUNDARY"

/-- A camera handle. -/
def sampleCam : PanasonicIPCam := { ipAddr := lit "10.0.0.7", name := lit "Room 1" }

/-- A network on which every request is answered with status 200. -/
def acceptingPeer : Peer := fun _ _ => .status 200

/-- A network on which the first request fails in transport and every later
request is answered with status 200. -/
def failFirstPeer : Peer := fun sent _ =>
  if sent = [] then .failed "connection refused" else .status 200

/-- The candidate parts of a buffer: the segments at indices 1 to `count` of
the buffer split on the boundary token; segment 0 is left out. -/
def candidateParts (boundary : Bytes) (count : Nat) (buf : Bytes) : List Bytes :=
  ((Split buf boundary).elems.drop 1).take count

/-- The one-shot result on a whole stream, in the words of the specification:
the per-part extraction applied to the segments 1 to `count` of the stream
split on the boundary when the stream holds at least `count + 1` instances of
the boundary, the empty sequence otherwise. -/
def oneShotFrames (boundary : Bytes) (count : Nat) (stream : Bytes) : Outcome :=
  if count + 1 ≤ Count stream boundary then
    collectFrames (candidateParts boundary count stream) []
  else .ok []

/-! ## Facts about the library functions -/

theorem hasPrefix_append (p s : Bytes) : HasPrefix (p ++ s) p = true := by
  unfold HasPrefix
  exact List.isPrefixOf_iff_prefix.mpr (List.prefix_append p s)

theorem hasPrefix_split (line p : Bytes) (h : HasPrefix line p = true) :
    line = p ++ line.drop p.length := by
  unfold HasPrefix at h
  obtain ⟨t, ht⟩ := List.isPrefixOf_iff_prefix.mp h
  rw [← ht]
  simp

/-- An index that `Index` reports is a place where `sep` stands in `s`. -/
theorem index_some_split : ∀ (s sep : Bytes) (i : Nat), Index s sep = some i →
    s = s.take i ++ sep ++ s.drop (i + sep.length) ∧ i + sep.length ≤ s.length := by
  intro s
  induction s with
  | nil =>
    intro sep i h
    simp only [Index] at h
    split at h
    · rename_i hs
      injection h with h
      subst h
      subst hs
      simp
    · cases h
  | cons b t ih =>
    intro sep i h
    simp only [Index] at h
    split at h
    · rename_i hp
      injection h with h
      subst h
      have := hasPrefix_split (b :: t) sep hp
      constructor
      · simpa using this
      · have hl := congrArg List.length this
        simp only [List.length_append, List.length_drop, List.length_cons] at hl ⊢
        omega
    · cases hj : Index t sep with
      | none => rw [hj] at h; cases h
      | some j =>
        rw [hj] at h
        simp only [Option.map_some'] at h
        injection h with h
        subst h
        obtain ⟨e1, e2⟩ := ih sep j hj
        constructor
        · have e3 : j + 1 + sep.length = (j + sep.length) + 1 := by omega
          rw [e3, List.take_succ_cons, List.drop_succ_cons, List.cons_append, List.cons_append,
            ← e1]
        · simp only [List.length_cons]
          omega

/-- No instance of `sep` starts before the index that `Index` reports. -/
theorem index_some_first : ∀ (s sep : Bytes) (i : Nat), Index s sep = some i →
    ∀ j, j < i → HasPrefix (s.drop j) sep = false := by
  intro s
  induction s with
  | nil =>
    intro sep i h j hj
    simp only [Index] at h
    split at h
    · injection h with h; omega
    · cases h
  | cons b t ih =>
    intro sep i h j hj
    simp only [Index] at h
    split at h
    · injection h with h; omega
    · rename_i hp
      cases hk : Index t sep with
      | none => rw [hk] at h; cases h
      | some k =>
        rw [hk] at h
        simp only [Option.map_some'] at h
        injection h with h
        subst h
        cases j with
        | zero => simpa using hp
        | succ j => simpa using ih sep k hk j (by omega)

/-- When `Index` reports no instance, `sep` stands nowhere in `s`. -/
theorem index_none_nowhere : ∀ (s sep : Bytes), Index s sep = none →
    ∀ j, HasPrefix (s.drop j) sep = false := by
  intro s
  induction s with
  | nil =>
    intro sep h j
    simp only [Index] at h
    split at h
    · cases h
    · rename_i hs
      simp only [List.drop_nil, HasPrefix]
      cases sep with
      | nil => exact absurd rfl hs
      | cons x xs => rfl
  | cons b t ih =>
    intro sep h j
    simp only [Index] at h
    split at h
    · cases h
    · rename_i hp
      cases hk : Index t sep with
      | some k => rw [hk] at h; cases h
      | none =>
        cases j with
        | zero => simpa using hp
        | succ j => simpa using ih sep hk j

/-- The loop of `Count` needs no more rounds than `len(s) + 1`. -/
theorem countLoop_fuel (sep : Bytes) (hsep : sep ≠ []) (f : Nat) :
    ∀ (g : Nat) (s : Bytes), s.length < f → s.length < g →
      countLoop sep f s = countLoop sep g s := by
  have hpos : 1 ≤ sep.length := by
    cases sep with
    | nil => exact absurd rfl hsep
    | cons x xs => simp
  induction f with
  | zero => intro g s h; omega
  | succ f ih =>
    intro g s hf hg
    cases g with
    | zero => omega
    | succ g =>
      simp only [countLoop]
      cases hi : Index s sep with
      | none => rfl
      | some i =>
        have := (index_some_split s sep i hi).2
        simp only
        rw [ih g (s.drop (i + sep.length))]
        · simp only [List.length_drop]; omega
        · simp only [List.length_drop]; omega

/-- The loop of `Split` needs no more rounds than `len(s) + 1`. -/
theorem splitLoop_fuel (sep : Bytes) (hsep : sep ≠ []) (f : Nat) :
    ∀ (g : Nat) (s : Bytes), s.length < f → s.length < g →
      splitLoop sep f s = splitLoop sep g s := by
  have hpos : 1 ≤ sep.length := by
    cases sep with
    | nil => exact absurd rfl hsep
    | cons x xs => simp
  induction f with
  | zero => intro g s h; omega
  | succ f ih =>
    intro g s hf hg
    cases g with
    | zero => omega
    | succ g =>
      simp only [splitLoop]
      cases hi : Index s sep with
      | none => rfl
      | some i =>
        have := (index_some_split s sep i hi).2
        simp only
        rw [ih g (s.drop (i + sep.length))]
        · simp only [List.length_drop]; omega
        · simp only [List.length_drop]; omega

/-- `Split` yields one element more than `Count` counts instances. -/
theorem splitLoop_length (sep : Bytes) (f : Nat) :
    ∀ s : Bytes, (splitLoop sep f s).length = countLoop sep f s + 1 := by
  induction f with
  | zero => intro s; rfl
  | succ f ih =>
    intro s
    simp only [splitLoop, countLoop]
    cases Index s sep with
    | none => rfl
    | some i => simp only [List.length_cons, ih]

theorem split_length_eq_count (s sep : Bytes) (hsep : sep ≠ []) :
    (Split s sep).elems.length = Count s sep + 1 ∧ (Split s sep).cap = Count s sep + 1 := by
  simp only [Split, Count, if_neg hsep, splitLoop_length, and_self]

/-- Joining the elements of `Split` with the separator gives `s` back. -/
theorem splitLoop_join (sep : Bytes) (f : Nat) :
    ∀ s : Bytes, List.intercalate sep (splitLoop sep f s) = s := by
  induction f with
  | zero => intro s; simp [splitLoop, List.intercalate]
  | succ f ih =>
    intro s
    simp only [splitLoop]
    cases hi : Index s sep with
    | none => simp [List.intercalate]
    | some i =>
      have hrec := ih (s.drop (i + sep.length))
      have hsplit := (index_some_split s sep i hi).1
      simp only
      cases hl : splitLoop sep f (s.drop (i + sep.length)) with
      | nil =>
        exfalso
        have := splitLoop_length sep f (s.drop (i + sep.length))
        rw [hl] at this
        simp at this
      | cons x xs =>
        rw [hl] at hrec
        simp only [List.intercalate, List.intersperse] at hrec ⊢
        rw [List.flatten_cons, List.flatten_cons, hrec, ← List.append_assoc]
        exact hsplit.symm

/-- A UTF-8 sequence of a non-empty input has one to four bytes, all of them
within the input. -/
theorem runeSize_bounds (b : Nat) (t : Bytes) :
    1 ≤ runeSize (b :: t) ∧ runeSize (b :: t) ≤ t.length + 1 := by
  simp only [runeSize]
  repeat' split
  all_goals (try simp only [List.length_cons])
  all_goals omega

/-- The loop of `explode` needs no more rounds than `len(s)`. -/
theorem explodeLoop_fuel (f : Nat) :
    ∀ (g : Nat) (s : Bytes), s.length ≤ f → s.length ≤ g →
      explodeLoop f s = explodeLoop g s := by
  induction f with
  | zero =>
    intro g s hf hg
    have hs : s = [] := List.length_eq_zero.mp (by omega)
    subst hs
    cases g <;> simp [explodeLoop]
  | succ f ih =>
    intro g s hf hg
    cases s with
    | nil => cases g <;> simp [explodeLoop]
    | cons b t =>
      cases g with
      | zero => simp at hg
      | succ g =>
        have hb := runeSize_bounds b t
        simp only [explodeLoop, if_neg (List.cons_ne_nil b t)]
        rw [ih g ((b :: t).drop (runeSize (b :: t)))]
        · simp only [List.length_drop, List.length_cons] at hf ⊢; omega
        · simp only [List.length_drop, List.length_cons] at hg ⊢; omega

/-- The read loop without a read result left. -/
theorem readLoop_nil (boundary : Bytes) (count : Nat) (buf : Bytes) :
    readLoop boundary count buf [] = .pending := rfl

/-- One round of the read loop, for what the loop does. -/
theorem readLoop_cons (boundary : Bytes) (count : Nat) (buf : Bytes) (r : ReadResult)
    (rs : List ReadResult) :
    readLoop boundary count buf (r :: rs)
      = if (Count (buf ++ r.data) boundary : Int) ≥ wrapInt (wrapInt (count : Int) + 1) then
          framesOfBuffer boundary count (buf ++ r.data)
        else
          match r.err with
          | .EOF => .ok []
          | .other => .error "Failed to read response"
          | .nil => readLoop boundary count (buf ++ r.data) rs := by
  by_cases ht : (Count (buf ++ r.data) boundary : Int) ≥ wrapInt (wrapInt (count : Int) + 1)
  · rw [if_pos ht, readLoop, readLoopRun, if_pos ht]
  · rw [if_neg ht, readLoop, readLoopRun, if_neg ht]
    cases he : r.err with
    | nil => rfl
    | EOF => rfl
    | other => rfl

theorem streamFrames_requestError (count : Nat) (msg : String) :
    StreamFrames count (.requestError msg) = .error msg := rfl

theorem streamFrames_doError (count : Nat) (msg : String) :
    StreamFrames count (.doError msg) = .error msg := rfl

/-- What `StreamFrames` does once a response has arrived. -/
theorem streamFrames_response_eq (count status : Nat) (contentType : Bytes)
    (body : List ReadResult) :
    StreamFrames count (.response status contentType body)
      = if status ≠ 200 then .error "Failed to connect to stream"
        else if !HasPrefix contentType mjpegContentTypePrefix then
          .error "Camera didn't return a stream"
        else readLoop (contentType.drop mjpegContentTypePrefix.length) count [] body := by
  by_cases h1 : status ≠ 200
  · rw [if_pos h1, StreamFrames, runStreamFrames, if_pos h1]
  · by_cases h2 : (!HasPrefix contentType mjpegContentTypePrefix) = true
    · rw [if_neg h1, if_pos h2, StreamFrames, runStreamFrames, if_neg h1, if_pos h2]
    · rw [if_neg h1, if_neg h2, StreamFrames, runStreamFrames, if_neg h1, if_neg h2]
      rfl

theorem wrapUint_succ_le (count : Nat) : wrapUint ((count : Int) + 1) ≤ count + 1 := by
  unfold wrapUint
  omega

theorem sliceFrom1_length (a : Slices) (hi : Nat) (l : List Bytes)
    (h : sliceFrom1 a hi = some l) : l.length + 1 ≤ hi := by
  unfold sliceFrom1 at h
  split at h
  · rename_i hb
    injection h with h
    subst h
    simp only [List.length_drop, List.length_take, List.length_append, List.length_replicate]
    omega
  · cases h

theorem collectFrames_length (parts : List Bytes) :
    ∀ (acc fs : List Bytes), collectFrames parts acc = .ok fs →
      fs.length ≤ acc.length + parts.length := by
  induction parts with
  | nil =>
    intro acc fs h
    simp only [collectFrames] at h
    injection h with h
    subst h
    simp
  | cons p ps ih =>
    intro acc fs h
    simp only [collectFrames] at h
    split at h
    · have := ih acc fs h
      simp only [List.length_cons]
      omega
    · have := ih _ fs h
      simp only [List.length_cons, List.length_append, List.length_nil] at this ⊢
      omega
    · cases h

theorem framesOfBuffer_length (boundary : Bytes) (count : Nat) (buf : Bytes) (fs : List Bytes)
    (h : framesOfBuffer boundary count buf = .ok fs) : fs.length ≤ count := by
  unfold framesOfBuffer at h
  split at h
  · cases h
  · rename_i multipart hs
    have h1 := sliceFrom1_length _ _ _ hs
    have h2 := collectFrames_length _ _ _ h
    have h3 := wrapUint_succ_le count
    simp only [List.length_nil] at h2
    omega

theorem readLoop_length (boundary : Bytes) (count : Nat) (reads : List ReadResult) :
    ∀ (buf : Bytes) (fs : List Bytes), readLoop boundary count buf reads = .ok fs →
      fs.length ≤ count := by
  induction reads with
  | nil => intro buf fs h; rw [readLoop_nil] at h; cases h
  | cons r rs ih =>
    intro buf fs h
    simp only [readLoop_cons] at h
    split at h
    · exact framesOfBuffer_length _ _ _ _ h
    · split at h
      · injection h with h
        subst h
        simp
      · cases h
      · exact ih _ _ h

theorem wrapInt_of_small (x : Int) (h0 : 0 ≤ x) (h1 : x < 2 ^ 63) : wrapInt x = x := by
  unfold wrapInt
  omega

theorem threshold_eq (count : Nat) (h : count + 1 < 2 ^ 63) :
    wrapInt (wrapInt (count : Int) + 1) = (count : Int) + 1 := by
  rw [wrapInt_of_small (count : Int) (by omega) (by omega)]
  exact wrapInt_of_small _ (by omega) (by omega)

theorem streamFrames_response (count : Nat) (boundary : Bytes) (body : List ReadResult) :
    StreamFrames count (.response 200 (mjpegContentTypePrefix ++ boundary) body)
      = readLoop boundary count [] body := by
  simp [streamFrames_response_eq, hasPrefix_append]

/-- Reads without error that leave the buffer below the threshold are
appended to the buffer and the loop goes on with the next read. -/
theorem readLoop_below_threshold (boundary : Bytes) (count : Nat) (h : count + 1 < 2 ^ 63)
    (rs : List ReadResult) (pre : List ReadResult) :
    ∀ (buf : Bytes), (∀ x ∈ pre, x.err = .nil) →
      (∀ k, k < pre.length → Count (buf ++ accumulate (pre.take (k + 1))) boundary < count + 1) →
      readLoop boundary count buf (pre ++ rs)
        = readLoop boundary count (buf ++ accumulate pre) rs := by
  induction pre with
  | nil => intro buf _ _; simp [accumulate]
  | cons r pre ih =>
    intro buf hnil hlow
    have h0 := hlow 0 (by simp)
    simp only [List.take_succ_cons, List.take_zero, accumulate, List.append_nil,
      zero_add] at h0
    have hr : r.err = .nil := hnil r (by simp)
    have hstep : readLoop boundary count buf (r :: (pre ++ rs))
        = readLoop boundary count (buf ++ r.data) (pre ++ rs) := by
      simp only [readLoop_cons, threshold_eq count h, hr]
      rw [if_neg]
      omega
    rw [List.cons_append, hstep, ih (buf ++ r.data)]
    · simp [accumulate]
    · intro x hx; exact hnil x (by simp [hx])
    · intro k hk
      have := hlow (k + 1) (by simp; omega)
      simpa [accumulate, List.append_assoc] using this

/-- C3: whenever `StreamFrames(count)` returns frames with a nil error, it
returns at most `count` frames, whatever the exchange with the camera was. -/
theorem streamFrames_length_le_count (count : Nat) (ex : StreamExchange) (frames : List Bytes)
    (h : StreamFrames count ex = .ok frames) : frames.length ≤ count := by
  cases ex with
  | requestError msg => rw [streamFrames_requestError] at h; cases h
  | doError msg => rw [streamFrames_doError] at h; cases h
  | response status contentType body =>
    rw [streamFrames_response_eq] at h
    split at h
    · cases h
    · split at h
      · cases h
      · exact readLoop_length _ _ _ _ _ h

/-- C3 (witness): three frames for `count = 3`. -/
theorem streamFrames_length_le_count_witness :
    StreamFrames 3 (.response 200 sampleContentType [⟨paddedBody, .EOF⟩])
        = .ok [lit "abc", lit "de", lit "f"] ∧
      [lit "abc", lit "de", lit "f"].length ≤ 3 :=
  ⟨by decide,
    streamFrames_length_le_count 3 (.response 200 sampleContentType [⟨paddedBody, .EOF⟩])
      [lit "abc", lit "de", lit "f"] (by decide)⟩

/-! ## `StreamFrames`: end of stream and read errors -/

theorem accumulate_append (xs ys : List ReadResult) :
    accumulate (xs ++ ys) = accumulate xs ++ accumulate ys := by
  induction xs with
  | nil => rfl
  | cons x xs ih => simp [accumulate, ih]

/-- The state of the loop when the read after the error-free reads `pre` is
made, none of the buffers so far having reached the threshold. -/
theorem readLoop_after_prefix (boundary : Bytes) (count : Nat) (h : count + 1 < 2 ^ 63)
    (pre : List ReadResult) (r : ReadResult) (rest : List ReadResult)
    (hpre : ∀ x ∈ pre, x.err = .nil)
    (hlow : ∀ k, k ≤ pre.length →
      Count (accumulate ((pre ++ [r]).take (k + 1))) boundary < count + 1) :
    readLoop boundary count [] (pre ++ r :: rest)
        = readLoop boundary count (accumulate pre) (r :: rest) ∧
      ¬ ((Count (accumulate pre ++ r.data) boundary : Int)
          ≥ wrapInt (wrapInt (count : Int) + 1)) := by
  constructor
  · rw [readLoop_below_threshold boundary count h (r :: rest) pre [] hpre]
    · simp
    · intro k hk
      have := hlow k (by omega)
      rw [List.take_append_of_le_length (by omega)] at this
      simpa using this
  · have := hlow pre.length (le_refl _)
    rw [List.take_of_length_le (by simp), accumulate_append] at this
    simp only [accumulate, List.append_nil] at this
    rw [threshold_eq count h]
    omega

/-- For a count below 2^63 - 1: when the error-free reads `pre` are followed
by a read that reports end-of-stream, and the buffer has fewer than `count + 1`
instances of the boundary after each of these reads, `StreamFrames(count)`
returns an empty sequence and a nil error. -/
theorem streamFrames_eof_below_threshold (boundary : Bytes) (count : Nat)
    (pre : List ReadResult) (r : ReadResult) (rest : List ReadResult)
    (hc : count + 1 < 2 ^ 63) (hpre : ∀ x ∈ pre, x.err = .nil) (hr : r.err = .EOF)
    (hlow : ∀ k, k ≤ pre.length →
      Count (accumulate ((pre ++ [r]).take (k + 1))) boundary < count + 1) :
    StreamFrames count (.response 200 (mjpegContentTypePrefix ++ boundary) (pre ++ r :: rest))
      = .ok [] := by
  obtain ⟨h1, h2⟩ := readLoop_after_prefix boundary count hc pre r rest hpre hlow
  rw [streamFrames_response, h1]
  simp only [readLoop_cons, if_neg h2, hr]

/-- C4 (the code at the failing input): for the largest `uint` as count,
`int(count) + 1` is 0, so the threshold test succeeds on a buffer with a single
boundary, and the slice expression `[1:count+1]`, which is `[1:0]`, panics; the
same happens for count 2^63 - 1, where `int(count) + 1` wraps around. The stream
ends with fewer than `count + 1` boundaries and no read fails. -/
theorem streamFrames_maxCount_panics :
    Count (lit "BOUNDARY\r\n") (lit "BOUNDARY") = 1 ∧
    StreamFrames 18446744073709551615
        (.response 200 sampleContentType [⟨lit "BOUNDARY\r\n", .EOF⟩]) = .panic ∧
    StreamFrames 9223372036854775807
        (.response 200 sampleContentType [⟨lit "BOUNDARY\r\n", .EOF⟩]) = .panic := by
  decide

/-- C5 (counterexample): the only read delivers the whole of `paddedBody` and
reports an error other than end-of-stream; `StreamFrames(3)` returns the three
frames and a nil error, not an error. For the largest `uint` as count a failing
read that delivers nothing ends in a panic, not in an error. -/
theorem streamFrames_error_with_data :
    (ReadResult.mk paddedBody .other).err = .other ∧
    StreamFrames 3 (.response 200 sampleContentType [⟨paddedBody, .other⟩])
        = .ok [lit "abc", lit "de", lit "f"] ∧
    (¬ ∃ msg, StreamFrames 3 (.response 200 sampleContentType [⟨paddedBody, .other⟩])
        = .error msg) ∧
    StreamFrames 18446744073709551615 (.response 200 sampleContentType [⟨[], .other⟩])
        = .panic := by
  have h : StreamFrames 3 (.response 200 sampleContentType [⟨paddedBody, .other⟩])
      = .ok [lit "abc", lit "de", lit "f"] := by decide
  refine ⟨rfl, h, ?_, by decide⟩
  rintro ⟨msg, hm⟩
  rw [h] at hm
  cases hm

/-- C5 (amended): for a count below 2^63 - 1, when the error-free reads `pre`
are followed by a read that reports an error other than end-of-stream, and the
buffer has fewer than `count + 1` instances of the boundary after each of these
reads, the bytes of the failing read included, `StreamFrames(count)` returns
the error `Failed to read response` and no frames. -/
theorem streamFrames_read_error (boundary : Bytes) (count : Nat)
    (pre : List ReadResult) (r : ReadResult) (rest : List ReadResult)
    (hc : count + 1 < 2 ^ 63) (hpre : ∀ x ∈ pre, x.err = .nil) (hr : r.err = .other)
    (hlow : ∀ k, k ≤ pre.length →
      Count (accumulate ((pre ++ [r]).take (k + 1))) boundary < count + 1) :
    StreamFrames count (.response 200 (mjpegContentTypePrefix ++ boundary) (pre ++ r :: rest))
      = .error "Failed to read response" := by
  obtain ⟨h1, h2⟩ := readLoop_after_prefix boundary count hc pre r rest hpre hlow
  rw [streamFrames_response, h1]
  simp only [readLoop_cons, if_neg h2, hr]

/-- C5 (witness): a first read ends within the second part, the second read
fails; three boundaries were needed for `count = 2`. -/
theorem streamFrames_read_error_witness :
    StreamFrames 2 (.response 200 (mjpegContentTypePrefix ++ lit "BOUNDARY")
        ([⟨lit "BOUNDARY\r\nContent-length: 3\r\n\r\nabc\r\nBOUNDARY\r\nContent-len", .nil⟩]
          ++ ⟨lit "gth: 2\r\n", .other⟩ :: []))
      = .error "Failed to read response" :=
  streamFrames_read_error (lit "BOUNDARY") 2
    [⟨lit "BOUNDARY\r\nContent-length: 3\r\n\r\nabc\r\nBOUNDARY\r\nContent-len", .nil⟩]
    ⟨lit "gth: 2\r\n", .other⟩ [] (by decide) (by decide) rfl (by decide)

/-! ## `StreamFrames`: the frames returned -/

/-- A part whose parsed length reaches to the end of the part or beyond it,
the sum staying within the range of `int`, is skipped, and the loop goes on
with the parts after it and the frames collected so far. -/
theorem collectFrames_skips_long_part (part : Bytes) (rest frames : List Bytes)
    (sep : Nat) (len : Int)
    (hlen : scanContentLength (Split part (lit "\n")).elems = len)
    (hsep : Index part (lit "\n\r\n") = some sep)
    (hlong : (part.length : Int) ≤ sep + 3 + len) (hfit : (sep : Int) + 3 + len < 2 ^ 63) :
    extractPart part = .skip ∧
      collectFrames (part :: rest) frames = collectFrames rest frames := by
  have hb := (index_some_split part _ sep hsep).2
  have h3 : (lit "\n\r\n").length = 3 := rfl
  rw [h3] at hb
  have hskip : extractPart part = .skip := by
    simp only [extractPart, hlen, hsep]
    split
    · rfl
    · have e1 : wrapInt ((sep : Int) + 3) = (sep : Int) + 3 :=
        wrapInt_of_small _ (by omega) (by omega)
      have e2 : wrapInt ((sep : Int) + 3 + len) = (sep : Int) + 3 + len :=
        wrapInt_of_small _ (by omega) hfit
      rw [e1, e2, if_pos (by omega)]
  exact ⟨hskip, by simp only [collectFrames, hskip]⟩

/-- C1 (the code at the failing input): for the boundary `BOUNDARY` and a body
of three well-formed parts whose payloads end the parts, `StreamFrames(3)` finds
the four boundaries, skips every part and returns no frame. In the first part
the length 3 is parsed, the separator stands at index 17 and 17 + 3 + 3 is the
length of the part, 23. -/
theorem streamFrames_exactBody :
    Count exactBody (lit "BOUNDARY") = 4 ∧
    (Split exactBody (lit "BOUNDARY")).elems
      = [[], lit "Content-length: 3\n\r\nabc", lit "Content-length: 2\n\r\nde",
          lit "Content-length: 1\n\r\nf", []] ∧
    scanContentLength (Split (lit "Content-length: 3\n\r\nabc") (lit "\n")).elems = 3 ∧
    Index (lit "Content-length: 3\n\r\nabc") (lit "\n\r\n") = some 17 ∧
    (lit "Content-length: 3\n\r\nabc").length = 23 ∧
    extractPart (lit "Content-length: 3\n\r\nabc") = .skip ∧
    StreamFrames 3 (.response 200 sampleContentType [⟨exactBody, .EOF⟩]) = .ok [] := by
  decide

/-- The same three payloads are returned once a byte follows each payload. -/
theorem streamFrames_paddedBody :
    StreamFrames 3 (.response 200 sampleContentType [⟨paddedBody, .EOF⟩])
      = .ok [lit "abc", lit "de", lit "f"] := by
  decide

/-- A part declaring 50 bytes and holding 2 is skipped, the parts around it
are extracted. -/
theorem streamFrames_oversizedBody :
    StreamFrames 3 (.response 200 sampleContentType [⟨oversizedBody, .EOF⟩])
      = .ok [lit "abc", lit "f"] := by
  decide

/-- C2 (the code at the failing input): a part whose `Content-length` is
9223372036854775807, far more than the bytes that follow the separator, is not
skipped: the sum `sep + 3 + contentLength` wraps around, the slice expression
panics and no frame of any part is returned. -/
theorem streamFrames_hugeLengthBody :
    (Split hugeLengthBody (lit "BOUNDARY")).elems
      = [[], lit "\r\nContent-length: 3\r\n\r\nabc\r\n",
          lit "\r\nContent-length: 9223372036854775807\r\n\r\nde\r\n",
          lit "\r\nContent-length: 1\r\n\r\nf\r\n", []] ∧
    scanContentLength
        (Split (lit "\r\nContent-length: 9223372036854775807\r\n\r\nde\r\n") (lit "\n")).elems
      = 9223372036854775807 ∧
    Index (lit "\r\nContent-length: 9223372036854775807\r\n\r\nde\r\n") (lit "\n\r\n")
      = some 38 ∧
    wrapInt (wrapInt (38 + 3) + 9223372036854775807) = -9223372036854775768 ∧
    extractPart (lit "\r\nContent-length: 9223372036854775807\r\n\r\nde\r\n") = .panic ∧
    StreamFrames 3 (.response 200 sampleContentType [⟨hugeLengthBody, .EOF⟩]) = .panic := by
  decide

/-! ## Command codes -/

/-- C6: for each of the nine pan/tilt actions and each speed,
`panTiltActionCode` returns the literal of the table, and each returned code
is a string of exactly four decimal digits. -/
theorem panTiltActionCode_table :
    (panTiltActionCode PanTiltStop false = some (lit "5050") ∧
      panTiltActionCode PanTiltUp false = some (lit "5075") ∧
      panTiltActionCode PanTiltDown false = some (lit "5025") ∧
      panTiltActionCode PanTiltLeft false = some (lit "2550") ∧
      panTiltActionCode PanTiltRight false = some (lit "7550") ∧
      panTiltActionCode PanTiltUpLeft false = some (lit "2575") ∧
      panTiltActionCode PanTiltUpRight false = some (lit "7575") ∧
      panTiltActionCode PanTiltDownLeft false = some (lit "2525") ∧
      panTiltActionCode PanTiltDownRight false = some (lit "7525")) ∧
    (panTiltActionCode PanTiltStop true = some (lit "5050") ∧
      panTiltActionCode PanTiltUp true = some (lit "5065") ∧
      panTiltActionCode PanTiltDown true = some (lit "5035") ∧
      panTiltActionCode PanTiltLeft true = some (lit "3550") ∧
      panTiltActionCode PanTiltRight true = some (lit "6550") ∧
      panTiltActionCode PanTiltUpLeft true = some (lit "3565") ∧
      panTiltActionCode PanTiltUpRight true = some (lit "6565") ∧
      panTiltActionCode PanTiltDownLeft true = some (lit "3535") ∧
      panTiltActionCode PanTiltDownRight true = some (lit "6535")) ∧
    ∀ (action : Fin 9) (slow : Bool), ∃ code : Bytes,
      panTiltActionCode action.val slow = some code ∧ code.length = 4 ∧
        code.all (fun b => decide (48 ≤ b ∧ b ≤ 57)) = true := by
  refine ⟨by decide, by decide, ?_⟩
  intro action slow
  fin_cases action <;> cases slow <;> exact ⟨_, rfl, by decide, by decide⟩

/-- C7: `zoomActionCode` returns `50` for Stop at either speed, `80` for In at
normal speed, `70` for In at slow speed, `20` for Out at normal speed and `30`
for Out at slow speed. -/
theorem zoomActionCode_table :
    zoomActionCode ZoomStop false = lit "50" ∧ zoomActionCode ZoomStop true = lit "50" ∧
    zoomActionCode ZoomIn false = lit "80" ∧ zoomActionCode ZoomIn true = lit "70" ∧
    zoomActionCode ZoomOut false = lit "20" ∧ zoomActionCode ZoomOut true = lit "30" := by
  decide

/-! ## Preset commands -/

theorem parseDigits_append (xs ys : Bytes) :
    ∀ a, parseDigits (xs ++ ys) a = (parseDigits xs a).bind (fun v => parseDigits ys v) := by
  induction xs with
  | nil => intro a; rfl
  | cons x xs ih =>
    intro a
    simp only [List.cons_append, parseDigits]
    split
    · exact ih _
    · rfl

theorem parseDigits_zeros (k : Nat) (ds : Bytes) :
    parseDigits (List.replicate k 48 ++ ds) 0 = parseDigits ds 0 := by
  induction k with
  | zero => rfl
  | succ k ih => simpa [List.replicate_succ, parseDigits] using ih

/-- The digit loop writes the decimal digits of `u`, most significant first and
without a leading zero, when the fuel covers the number of digits. -/
theorem fmtDigits_small (fuel u : Nat) (acc : Bytes) (hu : ¬ u ≥ 10) :
    ∃ ds : Bytes, fmtDigits (fuel + 1) u acc = ds ++ acc ∧ (∀ b ∈ ds, 48 ≤ b ∧ b ≤ 57) ∧
      1 ≤ ds.length ∧ (u < 10 → ds.length = 1) ∧ (ds.head? = some 48 → u = 0) ∧
      ∀ a, parseDigits ds a = some (a * 10 ^ ds.length + u) := by
  refine ⟨[48 + u], ?_, ?_, ?_, ?_, ?_, ?_⟩
  · simp only [fmtDigits, if_neg hu, List.singleton_append]
  · intro b hb
    simp only [List.mem_singleton] at hb
    omega
  · simp
  · intro _; rfl
  · intro hh
    simp only [List.head?_cons, Option.some.injEq] at hh
    omega
  · intro a
    simp only [parseDigits]
    rw [if_pos (by omega)]
    simp

theorem fmtDigits_spec (fuel : Nat) :
    ∀ (u : Nat) (acc : Bytes), u < 10 ^ (fuel + 1) →
      ∃ ds : Bytes, fmtDigits (fuel + 1) u acc = ds ++ acc ∧ (∀ b ∈ ds, 48 ≤ b ∧ b ≤ 57) ∧
        1 ≤ ds.length ∧ (u < 10 → ds.length = 1) ∧ (ds.head? = some 48 → u = 0) ∧
        ∀ a, parseDigits ds a = some (a * 10 ^ ds.length + u) := by
  induction fuel with
  | zero =>
    intro u acc h
    exact fmtDigits_small 0 u acc (by omega)
  | succ fuel ih =>
    intro u acc h
    by_cases hu : u ≥ 10
    · have hdiv : u / 10 < 10 ^ (fuel + 1) := by
        rw [Nat.div_lt_iff_lt_mul (by decide)]
        rw [pow_succ] at h
        exact h
      obtain ⟨ds, h1, h2, h3, _, h5, h6⟩ := ih (u / 10) ((48 + u % 10) :: acc) hdiv
      refine ⟨ds ++ [48 + u % 10], ?_, ?_, ?_, ?_, ?_, ?_⟩
      · rw [fmtDigits, if_pos hu, h1, List.append_assoc, List.singleton_append]
      · intro b hb
        rcases List.mem_append.mp hb with hb | hb
        · exact h2 b hb
        · simp only [List.mem_singleton] at hb
          omega
      · simp only [List.length_append, List.length_singleton]
        omega
      · intro hlt
        omega
      · intro hh
        have hne : ds ≠ [] := by
          intro he
          rw [he] at h3
          simp at h3
        rw [List.head?_append_of_ne_nil _ hne] at hh
        have := h5 hh
        omega
      · intro a
        rw [parseDigits_append, h6 a]
        simp only [Option.some_bind, parseDigits]
        rw [if_pos (by omega)]
        congr 1
        simp only [List.length_append, List.length_singleton, pow_succ]
        have := Nat.div_add_mod u 10
        have e : 48 + u % 10 - 48 = u % 10 := by omega
        rw [e]
        nlinarith [this]
    · exact fmtDigits_small (fuel + 1) u acc hu

/-- `Sprintf02d u` is the decimal representation of `u` padded with zeros to
at least two digits. -/
theorem sprintf02d_spec (u : Nat) (h : u < 2 ^ 64) :
    (∀ b ∈ Sprintf02d u, 48 ≤ b ∧ b ≤ 57) ∧ 2 ≤ (Sprintf02d u).length ∧
      (2 < (Sprintf02d u).length → (Sprintf02d u).head? ≠ some 48) ∧
      parseDigits (Sprintf02d u) 0 = some u := by
  obtain ⟨ds, h1, h2, h3, h4, h5, h6⟩ := fmtDigits_spec 19 u [] (by omega)
  rw [List.append_nil] at h1
  unfold Sprintf02d
  rw [h1]
  refine ⟨?_, ?_, ?_, ?_⟩
  · intro b hb
    rcases List.mem_append.mp hb with hb | hb
    · rw [List.mem_replicate] at hb
      omega
    · exact h2 b hb
  · simp only [List.length_append, List.length_replicate]
    omega
  · intro hlen hh
    simp only [List.length_append, List.length_replicate] at hlen
    have hz : 2 - ds.length = 0 := by omega
    rw [hz] at hh
    simp only [List.replicate_zero, List.nil_append] at hh
    have := h4 (by have := h5 hh; omega)
    omega
  · rw [parseDigits_zeros, h6 0]
    simp

/-- C8: for a preset index `id` from 1 up to the largest `uint`, the command
that `ExecutePreset(id)` passes to `sendCommand` is `R` followed by decimal
digits whose value is `id - 1`, at least two of them, with a leading zero only
to reach two digits; for index 1 the command is `R00`, for index 10 it is `R09`. -/
theorem executePreset_command (c : PanasonicIPCam) (id : Nat) (peer : Peer)
    (sent : List Bytes) (h1 : 1 ≤ id) (h2 : id < 2 ^ 64) :
    (∃ ds : Bytes, presetCommand id = lit "R" ++ ds ∧
      ExecutePreset c id peer sent = sendCommand c (lit "R" ++ ds) peer sent ∧
      (∀ b ∈ ds, 48 ≤ b ∧ b ≤ 57) ∧ 2 ≤ ds.length ∧
      (2 < ds.length → ds.head? ≠ some 48) ∧ parseDigits ds 0 = some (id - 1)) ∧
    presetCommand 1 = lit "R00" ∧ presetCommand 10 = lit "R09" := by
  have hw : wrapUint ((id : Int) - 1) = id - 1 := by
    unfold wrapUint
    omega
  obtain ⟨s1, s2, s3, s4⟩ := sprintf02d_spec (id - 1) (by omega)
  refine ⟨⟨Sprintf02d (id - 1), ?_, ?_, s1, s2, s3, s4⟩, by decide, by decide⟩
  · simp only [presetCommand, hw]
  · simp only [ExecutePreset, presetCommand, hw]

/-- C8 (witness): index 10 on a camera that accepts the command. -/
theorem executePreset_command_witness :
    (1 ≤ 10 ∧ 10 < 2 ^ 64) ∧
    ExecutePreset sampleCam 10 acceptingPeer []
      = .returned none [lit "http://10.0.0.7/cgi-bin/aw_ptz?cmd=%23R09&res=1"] ∧
    presetCommand 10 = lit "R09" :=
  ⟨by decide, by decide,
    (executePreset_command sampleCam 10 acceptingPeer [] (by decide) (by decide)).2.2⟩

/-- C9 (the code at the failing input): `ExecutePreset(0)` validates nothing.
It computes `0 - 1` in `uint` arithmetic, builds the command
`R18446744073709551615` and passes it to `sendCommand`, which requests the URL
of that command; the result is the result of that request, so on a camera that
answers 200 the call returns a nil error. -/
theorem executePreset_zero (c : PanasonicIPCam) (peer : Peer) (sent : List Bytes) :
    presetCommand 0 = lit "R18446744073709551615" ∧
    ExecutePreset c 0 peer sent = sendCommand c (lit "R18446744073709551615") peer sent ∧
    (∃ err, ExecutePreset c 0 peer sent
      = .returned err (sent ++ [commandURL c (lit "R18446744073709551615")])) ∧
    ExecutePreset sampleCam 0 acceptingPeer []
      = .returned none [lit "http://10.0.0.7/cgi-bin/aw_ptz?cmd=%23R18446744073709551615&res=1"] := by
  have h : presetCommand 0 = lit "R18446744073709551615" := by decide
  refine ⟨h, by simp only [ExecutePreset, h], ?_, by decide⟩
  simp only [ExecutePreset, h, sendCommand]
  cases peer sent (commandURL c (lit "R18446744073709551615")) with
  | failed msg => exact ⟨_, rfl⟩
  | status code =>
    by_cases hc : code = 200
    · exact ⟨none, by simp [hc]⟩
    · exact ⟨some "Command rejected by camera", by simp [hc]⟩

/-! ## `NewPanasonicIPCam` -/

theorem inCutset_iff (b : Nat) : inCutset b = true ↔ b = 32 ∨ b = 13 := by
  simp [inCutset]

/-- `Trim` removes a run of spaces and carriage returns at each end, and what
is left neither starts nor ends with one of them. -/
theorem trim_spec (s : Bytes) :
    ∃ lead trail : Bytes, s = lead ++ Trim s ++ trail ∧
      (∀ b ∈ lead, b = 32 ∨ b = 13) ∧ (∀ b ∈ trail, b = 32 ∨ b = 13) ∧
      (∀ b, (Trim s).head? = some b → b ≠ 32 ∧ b ≠ 13) ∧
      (∀ b, (Trim s).getLast? = some b → b ≠ 32 ∧ b ≠ 13) := by
  have hcut : ∀ b, inCutset b = false → b ≠ 32 ∧ b ≠ 13 := by
    intro b hb
    constructor <;> intro he <;> simp [inCutset, he] at hb
  have hlast : ∀ b, (Trim s).getLast? = some b → b ≠ 32 ∧ b ≠ 13 := by
    intro b hb
    unfold Trim at hb
    rw [List.getLast?_reverse] at hb
    have := List.head?_dropWhile_not inCutset (s.dropWhile inCutset).reverse
    rw [hb] at this
    exact hcut b this
  have hmid : s.dropWhile inCutset
      = Trim s ++ ((s.dropWhile inCutset).reverse.takeWhile inCutset).reverse := by
    unfold Trim
    rw [← List.reverse_append, List.takeWhile_append_dropWhile, List.reverse_reverse]
  refine ⟨s.takeWhile inCutset, ((s.dropWhile inCutset).reverse.takeWhile inCutset).reverse,
    ?_, ?_, ?_, ?_, hlast⟩
  · rw [List.append_assoc, ← hmid, List.takeWhile_append_dropWhile]
  · intro b hb
    exact (inCutset_iff b).mp (List.mem_takeWhile_imp hb)
  · intro b hb
    rw [List.mem_reverse] at hb
    exact (inCutset_iff b).mp (List.mem_takeWhile_imp hb)
  · intro b hb
    have hne : Trim s ≠ [] := by
      intro he
      rw [he] at hb
      cases hb
    have h1 := List.head?_dropWhile_not inCutset s
    rw [hmid, List.head?_append_of_ne_nil _ hne, hb] at h1
    exact hcut b h1

/-- The scan returns the trimmed remainder of the first line that starts with
`cam_title=`. -/
theorem scanTitle_first (props : List Bytes) :
    (∃ l ∈ props, HasPrefix l (lit "cam_title=") = true) →
    ∃ (pre : List Bytes) (rest : Bytes) (post : List Bytes),
      props = pre ++ (lit "cam_title=" ++ rest) :: post ∧
      (∀ l ∈ pre, HasPrefix l (lit "cam_title=") = false) ∧
      scanTitle props = some (Trim rest) := by
  induction props with
  | nil => rintro ⟨l, hl, _⟩; cases hl
  | cons p ps ih =>
    rintro ⟨l, hl, hp⟩
    by_cases hh : HasPrefix p (lit "cam_title=") = true
    · refine ⟨[], p.drop 10, ps, ?_, ?_, ?_⟩
      · have := hasPrefix_split p _ hh
        simpa using this
      · intro l hl; cases hl
      · simp only [scanTitle, if_pos hh]
    · have hl2 : l ∈ ps := by
        rcases List.mem_cons.mp hl with h | h
        · rw [h] at hp; exact absurd hp hh
        · exact h
      obtain ⟨pre, rest, post, e1, e2, e3⟩ := ih ⟨l, hl2, hp⟩
      refine ⟨p :: pre, rest, post, ?_, ?_, ?_⟩
      · rw [e1]; rfl
      · intro x hx
        rcases List.mem_cons.mp hx with h | h
        · rw [h]; simpa using hh
        · exact e2 x h
      · simp only [scanTitle, if_neg hh, e3]

/-- C10: for every address and every body of a 200 response that, split on
line feed, has a line starting with `cam_title=`, `NewPanasonicIPCam` returns a
handle and no error; the handle has the given address, and its name is what
follows `cam_title=` on the first such line without the spaces and carriage
returns at its two ends. -/
theorem newPanasonicIPCam_name (ipAddr body : Bytes)
    (h : ∃ l ∈ (Split body (lit "\n")).elems, HasPrefix l (lit "cam_title=") = true) :
    ∃ (pre : List Bytes) (rest : Bytes) (post : List Bytes) (lead name trail : Bytes),
      (Split body (lit "\n")).elems = pre ++ (lit "cam_title=" ++ rest) :: post ∧
      (∀ l ∈ pre, HasPrefix l (lit "cam_title=") = false) ∧
      rest = lead ++ name ++ trail ∧
      (∀ b ∈ lead, b = 32 ∨ b = 13) ∧ (∀ b ∈ trail, b = 32 ∨ b = 13) ∧
      (∀ b, name.head? = some b → b ≠ 32 ∧ b ≠ 13) ∧
      (∀ b, name.getLast? = some b → b ≠ 32 ∧ b ≠ 13) ∧
      NewPanasonicIPCam ipAddr (.response 200 body) = .ok { ipAddr := ipAddr, name := name } := by
  obtain ⟨pre, rest, post, e1, e2, e3⟩ := scanTitle_first _ h
  obtain ⟨lead, trail, t1, t2, t3, t4, t5⟩ := trim_spec rest
  refine ⟨pre, rest, post, lead, Trim rest, trail, e1, e2, t1, t2, t3, t4, t5, ?_⟩
  simp only [NewPanasonicIPCam, e3]
  rfl

/-- C10 (witness): a status body whose second line carries the title; a later
title line is not used. -/
theorem newPanasonicIPCam_name_witness :
    NewPanasonicIPCam (lit "10.0.0.7")
        (.response 200 (lit "cam_type=1\r\ncam_title= \r Room 1 \r\nversion=2\ncam_title=Other"))
      = .ok { ipAddr := lit "10.0.0.7", name := lit "Room 1" } ∧
    ∃ (pre : List Bytes) (rest : Bytes) (post : List Bytes) (lead name trail : Bytes),
      (Split (lit "cam_type=1\r\ncam_title= \r Room 1 \r\nversion=2\ncam_title=Other")
          (lit "\n")).elems = pre ++ (lit "cam_title=" ++ rest) :: post ∧
      (∀ l ∈ pre, HasPrefix l (lit "cam_title=") = false) ∧
      rest = lead ++ name ++ trail ∧
      (∀ b ∈ lead, b = 32 ∨ b = 13) ∧ (∀ b ∈ trail, b = 32 ∨ b = 13) ∧
      (∀ b, name.head? = some b → b ≠ 32 ∧ b ≠ 13) ∧
      (∀ b, name.getLast? = some b → b ≠ 32 ∧ b ≠ 13) ∧
      NewPanasonicIPCam (lit "10.0.0.7")
          (.response 200 (lit "cam_type=1\r\ncam_title= \r Room 1 \r\nversion=2\ncam_title=Other"))
        = .ok { ipAddr := lit "10.0.0.7", name := name } :=
  ⟨rfl,
    newPanasonicIPCam_name (lit "10.0.0.7")
      (lit "cam_type=1\r\ncam_title= \r Room 1 \r\nversion=2\ncam_title=Other")
      ⟨lit "cam_title= \r Room 1 \r", by decide, by decide⟩⟩

theorem scanTitle_none (props : List Bytes)
    (h : ∀ l ∈ props, HasPrefix l (lit "cam_title=") = false) : scanTitle props = none := by
  induction props with
  | nil => rfl
  | cons p ps ih =>
    have hp : ¬ (HasPrefix p (lit "cam_title=") = true) := by
      rw [h p (by simp)]
      simp
    simp only [scanTitle, if_neg hp]
    exact ih (fun l hl => h l (by simp [hl]))

/-- C11: when the status of the response is not 200, `NewPanasonicIPCam`
returns the error `Invalid IP address` and no handle; when the status is 200
and no line of the body starts with `cam_title=`, it returns the error
`Error fetching cam details` and no handle; the two results differ. -/
theorem newPanasonicIPCam_errors (ipAddr : Bytes) (status : Nat) (body noTitle : Bytes)
    (hs : status ≠ 200)
    (hn : ∀ l ∈ (Split noTitle (lit "\n")).elems, HasPrefix l (lit "cam_title=") = false) :
    NewPanasonicIPCam ipAddr (.response status body) = .error "Invalid IP address" ∧
    NewPanasonicIPCam ipAddr (.response 200 noTitle) = .error "Error fetching cam details" ∧
    NewPanasonicIPCam ipAddr (.response status body)
      ≠ NewPanasonicIPCam ipAddr (.response 200 noTitle) := by
  have h1 : NewPanasonicIPCam ipAddr (.response status body) = .error "Invalid IP address" := by
    simp only [NewPanasonicIPCam, if_pos hs]
  have h2 : NewPanasonicIPCam ipAddr (.response 200 noTitle)
      = .error "Error fetching cam details" := by
    simp only [NewPanasonicIPCam, scanTitle_none _ hn]
    rfl
  refine ⟨h1, h2, ?_⟩
  rw [h1, h2]
  intro h
  injection h with h
  exact absurd h (by decide)

/-- C11 (witness): status 404, and status 200 with a body without a title. -/
theorem newPanasonicIPCam_errors_witness :
    NewPanasonicIPCam (lit "10.0.0.7") (.response 404 (lit "Not Found"))
      = .error "Invalid IP address" ∧
    NewPanasonicIPCam (lit "10.0.0.7") (.response 200 (lit "<html>\r\nhello\r\n</html>"))
      = .error "Error fetching cam details" ∧
    NewPanasonicIPCam (lit "10.0.0.7") (.response 404 (lit "Not Found"))
      ≠ NewPanasonicIPCam (lit "10.0.0.7") (.response 200 (lit "<html>\r\nhello\r\n</html>")) :=
  newPanasonicIPCam_errors (lit "10.0.0.7") 404 (lit "Not Found")
    (lit "<html>\r\nhello\r\n</html>") (by decide) (by decide)

/-! ## Timed pan/tilt -/

theorem sendCommand_sent (c : PanasonicIPCam) (cmd : Bytes) (peer : Peer) (sent : List Bytes) :
    ∃ err, sendCommand c cmd peer sent = .returned err (sent ++ [commandURL c cmd]) := by
  unfold sendCommand
  cases peer sent (commandURL c cmd) with
  | failed msg => exact ⟨_, rfl⟩
  | status code =>
    by_cases hc : code = 200
    · exact ⟨none, by simp [hc]⟩
    · exact ⟨some "Command rejected by camera", by simp [hc]⟩

theorem doPanTilt_of_code (c : PanasonicIPCam) (action : PanTiltAction) (code : Bytes)
    (peer : Peer) (sent : List Bytes) (h : panTiltActionCode action false = some code) :
    DoPanTilt c action peer sent = sendCommand c (lit "PTS" ++ code) peer sent := by
  simp only [DoPanTilt, h]

/-- C12: for each of the nine pan/tilt actions, every duration and every
behaviour of the network, `PanTiltTimed` requests two URLs in order, that of
`PTS` followed by the normal-speed code of the action and that of `PTS5050`,
and what it returns is the result of `sendCommand` for `PTS5050`, made after
the first request whatever that one yielded. -/
theorem panTiltTimed_sends_stop (c : PanasonicIPCam) (action : PanTiltAction)
    (duration : Nat) (peer : Peer) (sent : List Bytes) (ha : action < 9) :
    ∃ code, panTiltActionCode action false = some code ∧
      PanTiltTimed c action duration peer sent
        = sendCommand c (lit "PTS5050") peer (sent ++ [commandURL c (lit "PTS" ++ code)]) ∧
      ∃ err, PanTiltTimed c action duration peer sent
        = .returned err
            (sent ++ [commandURL c (lit "PTS" ++ code), commandURL c (lit "PTS5050")]) := by
  have hcode : ∃ code, panTiltActionCode action false = some code := by
    interval_cases action <;> exact ⟨_, rfl⟩
  obtain ⟨code, hc⟩ := hcode
  have hstop : panTiltActionCode PanTiltStop false = some (lit "5050") := rfl
  have hlit : lit "PTS" ++ lit "5050" = lit "PTS5050" := rfl
  obtain ⟨e1, he1⟩ := sendCommand_sent c (lit "PTS" ++ code) peer sent
  have hrun : PanTiltTimed c action duration peer sent
      = sendCommand c (lit "PTS5050") peer (sent ++ [commandURL c (lit "PTS" ++ code)]) := by
    simp only [PanTiltTimed, doPanTilt_of_code c action code peer sent hc, he1,
      doPanTilt_of_code c PanTiltStop (lit "5050") peer _ hstop, hlit]
  refine ⟨code, hc, hrun, ?_⟩
  obtain ⟨e2, he2⟩ := sendCommand_sent c (lit "PTS5050") peer
    (sent ++ [commandURL c (lit "PTS" ++ code)])
  exact ⟨e2, by rw [hrun, he2, List.append_assoc]; rfl⟩

/-- C12 (witness): `Up` on a network where the first request fails and the
second is answered with 200: both URLs are requested and the nil error of the
Stop request is returned. -/
theorem panTiltTimed_sends_stop_witness :
    PanTiltTimed sampleCam PanTiltUp 200 failFirstPeer []
      = .returned none [lit "http://10.0.0.7/cgi-bin/aw_ptz?cmd=%23PTS5075&res=1",
          lit "http://10.0.0.7/cgi-bin/aw_ptz?cmd=%23PTS5050&res=1"] ∧
    ∃ code, panTiltActionCode PanTiltUp false = some code ∧
      PanTiltTimed sampleCam PanTiltUp 200 failFirstPeer []
        = sendCommand sampleCam (lit "PTS5050") failFirstPeer
            ([] ++ [commandURL sampleCam (lit "PTS" ++ code)]) ∧
      ∃ err, PanTiltTimed sampleCam PanTiltUp 200 failFirstPeer []
        = .returned err
            ([] ++ [commandURL sampleCam (lit "PTS" ++ code),
              commandURL sampleCam (lit "PTS5050")]) :=
  ⟨by decide, panTiltTimed_sends_stop sampleCam PanTiltUp 200 failFirstPeer [] (by decide)⟩

/-- C19: in both tables the code of a diagonal action has the first two digits
of the code of its horizontal component and the last two digits of the code of
its vertical component at the same speed, and Stop has the code `5050` at both
speeds. -/
theorem panTiltActionCode_diagonals :
    (∀ slow : Bool,
      (panTiltActionCode PanTiltUpLeft slow).map (List.take 2)
          = (panTiltActionCode PanTiltLeft slow).map (List.take 2) ∧
        (panTiltActionCode PanTiltUpLeft slow).map (List.drop 2)
          = (panTiltActionCode PanTiltUp slow).map (List.drop 2) ∧
        (panTiltActionCode PanTiltUpRight slow).map (List.take 2)
          = (panTiltActionCode PanTiltRight slow).map (List.take 2) ∧
        (panTiltActionCode PanTiltUpRight slow).map (List.drop 2)
          = (panTiltActionCode PanTiltUp slow).map (List.drop 2) ∧
        (panTiltActionCode PanTiltDownLeft slow).map (List.take 2)
          = (panTiltActionCode PanTiltLeft slow).map (List.take 2) ∧
        (panTiltActionCode PanTiltDownLeft slow).map (List.drop 2)
          = (panTiltActionCode PanTiltDown slow).map (List.drop 2) ∧
        (panTiltActionCode PanTiltDownRight slow).map (List.take 2)
          = (panTiltActionCode PanTiltRight slow).map (List.take 2) ∧
        (panTiltActionCode PanTiltDownRight slow).map (List.drop 2)
          = (panTiltActionCode PanTiltDown slow).map (List.drop 2) ∧
        (∀ action : Fin 9, ∃ code : Bytes,
          panTiltActionCode action.val slow = some code ∧ code.length = 4)) ∧
    panTiltActionCode PanTiltStop false = some (lit "5050") ∧
    panTiltActionCode PanTiltStop true = some (lit "5050") := by
  refine ⟨?_, by decide, by decide⟩
  intro slow
  cases slow
  · refine ⟨by decide, by decide, by decide, by decide, by decide, by decide, by decide,
      by decide, ?_⟩
    intro action
    fin_cases action <;> exact ⟨_, rfl, by decide⟩
  · refine ⟨by decide, by decide, by decide, by decide, by decide, by decide, by decide,
      by decide, ?_⟩
    intro action
    fin_cases action <;> exact ⟨_, rfl, by decide⟩

/-! ## Per-part extraction -/

theorem atoi_range (s : Bytes) (v : Int) (h : Atoi s = some v) :
    -2 ^ 63 ≤ v ∧ v < 2 ^ 63 := by
  unfold Atoi at h
  split at h
  · cases h
  · split at h
    · split at h
      · cases h
      · simp only [Option.bind_eq_some] at h
        obtain ⟨n, _, hn⟩ := h
        split at hn
        · injection hn with hn
          omega
        · cases hn
    · split at h
      · split at h
        · cases h
        · simp only [Option.bind_eq_some] at h
          obtain ⟨n, _, hn⟩ := h
          split at hn
          · injection hn with hn
            omega
          · cases hn
      · simp only [Option.bind_eq_some] at h
        obtain ⟨n, _, hn⟩ := h
        split at hn
        · injection hn with hn
          omega
        · cases hn

/-- A value other than -1 that the scan leaves in `contentLength` is what
`Atoi` reads behind `Content-length: ` on the first line that, trimmed, starts
with these bytes. -/
theorem scanContentLength_spec (lines : List Bytes) (v : Int)
    (h : scanContentLength lines = v) (hv : v ≠ -1) :
    ∃ (pre : List Bytes) (line : Bytes) (post : List Bytes),
      lines = pre ++ line :: post ∧
      (∀ l ∈ pre, HasPrefix (Trim l) (lit "Content-length: ") = false) ∧
      HasPrefix (Trim line) (lit "Content-length: ") = true ∧
      Atoi ((Trim line).drop 16) = some v := by
  induction lines with
  | nil => simp only [scanContentLength] at h; exact absurd h.symm hv
  | cons l ls ih =>
    simp only [scanContentLength] at h
    split at h
    · rename_i hp
      refine ⟨[], l, ls, rfl, ?_, hp, ?_⟩
      · intro x hx; cases hx
      · cases ha : Atoi ((Trim l).drop 16) with
        | none => rw [ha] at h; exact absurd h.symm hv
        | some w => rw [ha] at h; simp only at h; rw [h]
    · rename_i hp
      obtain ⟨pre, line, post, e1, e2, e3, e4⟩ := ih h
      refine ⟨l :: pre, line, post, by rw [e1]; rfl, ?_, e3, e4⟩
      intro x hx
      rcases List.mem_cons.mp hx with hx | hx
      · rw [hx]; simpa using hp
      · exact e2 x hx

/-- When no line of the part, trimmed, starts with the bytes `Content-length: `,
the scan leaves `contentLength` at -1. -/
theorem scanContentLength_absent (lines : List Bytes)
    (h : ∀ l ∈ lines, HasPrefix (Trim l) (lit "Content-length: ") = false) :
    scanContentLength lines = -1 := by
  induction lines with
  | nil => rfl
  | cons l ls ih =>
    have hl : ¬ (HasPrefix (Trim l) (lit "Content-length: ") = true) := by
      rw [h l (by simp)]
      simp
    simp only [scanContentLength, if_neg hl]
    exact ih (fun x hx => h x (by simp [hx]))

/-- At the index that `Index` reports, `sep` stands in `s`. -/
theorem index_some_occurs : ∀ (s sep : Bytes) (i : Nat), Index s sep = some i →
    HasPrefix (s.drop i) sep = true := by
  intro s
  induction s with
  | nil =>
    intro sep i h
    simp only [Index] at h
    split at h
    · rename_i hs
      subst hs
      simp [HasPrefix]
    · cases h
  | cons b t ih =>
    intro sep i h
    simp only [Index] at h
    split at h
    · rename_i hp
      injection h with h
      subst h
      exact hp
    · cases hj : Index t sep with
      | none => rw [hj] at h; cases h
      | some j =>
        rw [hj] at h
        simp only [Option.map_some'] at h
        injection h with h
        subst h
        exact ih sep j hj

/-- C14: whenever the extraction yields a frame from a part, the separator
occurs first at an index `s`, the first line that, trimmed, starts with
`Content-length: ` carries the integer `L`, and the frame is the `L` bytes of
the part from index `s + 3` on, all of them inside the part. -/
theorem extractPart_frame_range (part jpeg : Bytes) (h : extractPart part = .frame jpeg) :
    ∃ (s L : Nat) (pre : List Bytes) (line : Bytes) (post : List Bytes),
      Index part (lit "\n\r\n") = some s ∧
      HasPrefix (part.drop s) (lit "\n\r\n") = true ∧
      (∀ j, j < s → HasPrefix (part.drop j) (lit "\n\r\n") = false) ∧
      (Split part (lit "\n")).elems = pre ++ line :: post ∧
      (∀ l ∈ pre, HasPrefix (Trim l) (lit "Content-length: ") = false) ∧
      HasPrefix (Trim line) (lit "Content-length: ") = true ∧
      Atoi ((Trim line).drop 16) = some (L : Int) ∧
      s + 3 + L ≤ part.length ∧
      jpeg = (part.take (s + 3 + L)).drop (s + 3) ∧
      jpeg = (part.drop (s + 3)).take L ∧
      jpeg.length = L := by
  simp only [extractPart] at h
  split at h
  · cases h
  · rename_i hne
    obtain ⟨pre, line, post, e1, e2, e3, e4⟩ := scanContentLength_spec _ _ rfl hne
    have hr := atoi_range _ _ e4
    split at h
    · cases h
    · rename_i s hs
      have hb := (index_some_split part _ s hs).2
      have h3 : (lit "\n\r\n").length = 3 := rfl
      rw [h3] at hb
      have hocc := index_some_occurs part _ s hs
      split at h
      · cases h
      · rename_i hlt
        split at h
        · rename_i hle
          injection h with h
          generalize hL : scanContentLength (Split part (lit "\n")).elems = len at *
          have hval : wrapInt (wrapInt ((s : Int) + 3) + len) = (s : Int) + 3 + len ∧ 0 ≤ len := by
            unfold wrapInt at hlt hle ⊢
            omega
          obtain ⟨hv, hpos⟩ := hval
          rw [hv] at h hlt
          obtain ⟨L, hLn⟩ := Int.eq_ofNat_of_zero_le hpos
          subst hLn
          have htn : ((s : Int) + 3 + (L : Int)).toNat = s + 3 + L := by omega
          rw [htn] at h
          have hlen : s + 3 + L ≤ part.length := by omega
          refine ⟨s, L, pre, line, post, hs, hocc, index_some_first part _ s hs, e1, e2, e3,
            e4, hlen, h.symm, ?_, ?_⟩
          · have hsub : s + 3 + L - (s + 3) = L := by omega
            rw [← h, List.drop_take, hsub]
          · rw [← h, List.length_drop, List.length_take]
            omega
        · cases h

/-- C14 (witness): the second part of `paddedBody`. -/
theorem extractPart_frame_range_witness :
    extractPart (lit "\r\nContent-length: 2\r\n\r\nde\r\n") = .frame (lit "de") ∧
    ∃ (s L : Nat) (pre : List Bytes) (line : Bytes) (post : List Bytes),
      Index (lit "\r\nContent-length: 2\r\n\r\nde\r\n") (lit "\n\r\n") = some s ∧
      HasPrefix ((lit "\r\nContent-length: 2\r\n\r\nde\r\n").drop s) (lit "\n\r\n") = true ∧
      (∀ j, j < s →
        HasPrefix ((lit "\r\nContent-length: 2\r\n\r\nde\r\n").drop j) (lit "\n\r\n") = false) ∧
      (Split (lit "\r\nContent-length: 2\r\n\r\nde\r\n") (lit "\n")).elems
        = pre ++ line :: post ∧
      (∀ l ∈ pre, HasPrefix (Trim l) (lit "Content-length: ") = false) ∧
      HasPrefix (Trim line) (lit "Content-length: ") = true ∧
      Atoi ((Trim line).drop 16) = some (L : Int) ∧
      s + 3 + L ≤ (lit "\r\nContent-length: 2\r\n\r\nde\r\n").length ∧
      lit "de" = ((lit "\r\nContent-length: 2\r\n\r\nde\r\n").take (s + 3 + L)).drop (s + 3) ∧
      lit "de" = ((lit "\r\nContent-length: 2\r\n\r\nde\r\n").drop (s + 3)).take L ∧
      (lit "de").length = L :=
  ⟨by decide,
    extractPart_frame_range (lit "\r\nContent-length: 2\r\n\r\nde\r\n") (lit "de") (by decide)⟩

/-- C13 (the code at the failing input): in the part `Content-length: 2`,
separator, `de`, the length 2 is parsed, the separator first occurs at index 20
and 20 + 3 + 2 is the length of the part, 25; the part is skipped. With one
more byte behind the payload the frame `de` is extracted. -/
theorem extractPart_exact_fit_skipped :
    scanContentLength (Split (lit "\r\nContent-length: 2\r\n\r\nde") (lit "\n")).elems = 2 ∧
    Index (lit "\r\nContent-length: 2\r\n\r\nde") (lit "\n\r\n") = some 20 ∧
    (lit "\r\nContent-length: 2\r\n\r\nde").length = 20 + 3 + 2 ∧
    extractPart (lit "\r\nContent-length: 2\r\n\r\nde") = .skip ∧
    extractPart (lit "\r\nContent-length: 2\r\n\r\nde\r") = .frame (lit "de") := by
  decide

/-- C16 (counterexample): the same part with the header spelled
`Content-length` yields the frame `de`, with the header spelled
`Content-Length` or `content-length` it yields no frame. -/
theorem extractPart_header_case_matters :
    extractPart (lit "\r\nContent-length: 2\r\n\r\nde\r\n") = .frame (lit "de") ∧
    extractPart (lit "\r\nContent-Length: 2\r\n\r\nde\r\n") = .skip ∧
    extractPart (lit "\r\ncontent-length: 2\r\n\r\nde\r\n") = .skip := by
  decide

/-- C16 (amended): the header is matched byte for byte. A part none of whose
lines, trimmed of spaces and carriage returns, starts with the bytes
`Content-length: ` in exactly this spelling is skipped, whatever other spelling
of the header it carries. -/
theorem extractPart_needs_exact_header (part : Bytes)
    (h : ∀ l ∈ (Split part (lit "\n")).elems,
      HasPrefix (Trim l) (lit "Content-length: ") = false) :
    extractPart part = .skip := by
  simp only [extractPart, scanContentLength_absent _ h]
  rfl

/-- C16 (witness): a part whose header is spelled `Content-Length`. -/
theorem extractPart_needs_exact_header_witness :
    extractPart (lit "\r\nContent-Length: 2\r\n\r\nde\r\n") = .skip :=
  extractPart_needs_exact_header (lit "\r\nContent-Length: 2\r\n\r\nde\r\n") (by decide)

/-- C18 (the code at the failing input): in the part with the header
`Content-length: -5` the length -5 is parsed, the separator first occurs at
index 21, and 21 + 3 - 5 = 19 is less than the length of the part, 29, so the
part is not skipped; the slice expression `[24:19]` panics, and so does
`StreamFrames` on a stream with this part. -/
theorem extractPart_negative_length_panics :
    scanContentLength (Split (lit "\r\nContent-length: -5\r\n\r\nabc\r\n") (lit "\n")).elems
      = -5 ∧
    Index (lit "\r\nContent-length: -5\r\n\r\nabc\r\n") (lit "\n\r\n") = some 21 ∧
    (lit "\r\nContent-length: -5\r\n\r\nabc\r\n").length = 29 ∧
    wrapInt (wrapInt (21 + 3) + -5) = 19 ∧
    extractPart (lit "\r\nContent-length: -5\r\n\r\nabc\r\n") = .panic ∧
    StreamFrames 1 (.response 200 sampleContentType
        [⟨lit "BOUNDARY\r\nContent-length: -5\r\n\r\nabc\r\nBOUNDARY", .EOF⟩]) = .panic := by
  decide

/-! ## Splitting a buffer and splitting a longer buffer -/

theorem sep_length_pos (sep : Bytes) (hsep : sep ≠ []) : 1 ≤ sep.length := by
  cases sep with
  | nil => exact absurd rfl hsep
  | cons x xs => simp

theorem hasPrefix_of_append (s t sep : Bytes) (h : HasPrefix (s ++ t) sep = true)
    (hlen : sep.length ≤ s.length) : HasPrefix s sep = true := by
  unfold HasPrefix at h ⊢
  rw [List.isPrefixOf_iff_prefix] at h ⊢
  exact List.prefix_of_prefix_length_le h (List.prefix_append s t) hlen

theorem hasPrefix_append_right (s t sep : Bytes) (h : HasPrefix s sep = true) :
    HasPrefix (s ++ t) sep = true := by
  unfold HasPrefix at h ⊢
  rw [List.isPrefixOf_iff_prefix] at h ⊢
  exact h.trans (List.prefix_append s t)

/-- The first instance of `sep` in `s` is the first instance in every
extension of `s`. -/
theorem index_append : ∀ (s t sep : Bytes) (i : Nat), Index s sep = some i →
    Index (s ++ t) sep = some i := by
  intro s
  induction s with
  | nil =>
    intro t sep i h
    simp only [Index] at h
    split at h
    · rename_i hs
      injection h with h
      subst h
      subst hs
      cases t with
      | nil => rfl
      | cons b t => simp [Index, HasPrefix]
    · cases h
  | cons b r ih =>
    intro t sep i h
    simp only [Index] at h
    split at h
    · rename_i hp
      injection h with h
      subst h
      have := hasPrefix_append_right (b :: r) t sep hp
      rw [List.cons_append] at this
      rw [List.cons_append, Index, if_pos this]
    · rename_i hp
      cases hj : Index r sep with
      | none => rw [hj] at h; cases h
      | some j =>
        rw [hj] at h
        simp only [Option.map_some'] at h
        injection h with h
        subst h
        have hb := (index_some_split r sep j hj).2
        have hnp : ¬ (HasPrefix (b :: (r ++ t)) sep = true) := by
          intro hq
          apply hp
          have hq2 : HasPrefix ((b :: r) ++ t) sep = true := by
            rw [List.cons_append]; exact hq
          exact hasPrefix_of_append (b :: r) t sep hq2 (by simp only [List.length_cons]; omega)
        rw [List.cons_append, Index, if_neg hnp, ih t sep j hj]
        rfl

/-- `Count` counts no more instances than the buffer has bytes. -/
theorem countLoop_le_length (sep : Bytes) (hsep : sep ≠ []) (f : Nat) :
    ∀ s : Bytes, countLoop sep f s ≤ s.length := by
  have hpos := sep_length_pos sep hsep
  induction f with
  | zero => intro s; simp [countLoop]
  | succ f ih =>
    intro s
    simp only [countLoop]
    cases hi : Index s sep with
    | none => simp
    | some i =>
      have hb := (index_some_split s sep i hi).2
      have := ih (s.drop (i + sep.length))
      simp only [List.length_drop] at this ⊢
      omega

/-- Appending bytes to a buffer does not lower the count of instances. -/
theorem countLoop_append_mono (sep : Bytes) (hsep : sep ≠ []) (f : Nat) :
    ∀ (g : Nat) (s t : Bytes), s.length < f → (s ++ t).length < g →
      countLoop sep f s ≤ countLoop sep g (s ++ t) := by
  have hpos := sep_length_pos sep hsep
  induction f with
  | zero => intro g s t h; omega
  | succ f ih =>
    intro g s t hf hg
    cases g with
    | zero => omega
    | succ g =>
      simp only [countLoop]
      cases hi : Index s sep with
      | none => simp
      | some i =>
        have hb := (index_some_split s sep i hi).2
        rw [index_append s t sep i hi]
        simp only
        rw [List.drop_append_of_le_length hb]
        have := ih g (s.drop (i + sep.length)) t
          (by simp only [List.length_drop]; omega)
          (by simp only [List.length_append, List.length_drop] at hg ⊢; omega)
        omega

/-- The elements of `Split` that end at an instance found in a buffer are the
same in every extension of the buffer. -/
theorem splitLoop_take_append (sep : Bytes) (hsep : sep ≠ []) (f : Nat) :
    ∀ (g : Nat) (s t : Bytes) (n : Nat), s.length < f → (s ++ t).length < g →
      n ≤ countLoop sep f s →
      (splitLoop sep g (s ++ t)).take n = (splitLoop sep f s).take n := by
  have hpos := sep_length_pos sep hsep
  induction f with
  | zero => intro g s t n h; omega
  | succ f ih =>
    intro g s t n hf hg hn
    cases g with
    | zero => omega
    | succ g =>
      cases n with
      | zero => simp
      | succ n =>
        simp only [countLoop] at hn
        simp only [splitLoop]
        cases hi : Index s sep with
        | none => rw [hi] at hn; simp at hn
        | some i =>
          rw [hi] at hn
          simp only at hn
          have hb := (index_some_split s sep i hi).2
          rw [index_append s t sep i hi]
          simp only [List.take_succ_cons]
          rw [List.drop_append_of_le_length hb, List.take_append_of_le_length (by omega)]
          rw [ih g (s.drop (i + sep.length)) t n
            (by simp only [List.length_drop]; omega)
            (by simp only [List.length_append, List.length_drop] at hg ⊢; omega)
            (by omega)]

theorem count_le_length (s sep : Bytes) (hsep : sep ≠ []) : Count s sep ≤ s.length := by
  simp only [Count, if_neg hsep]
  exact countLoop_le_length sep hsep _ s

theorem count_append_mono (s t sep : Bytes) (hsep : sep ≠ []) :
    Count s sep ≤ Count (s ++ t) sep := by
  simp only [Count, if_neg hsep]
  exact countLoop_append_mono sep hsep _ _ s t (by omega) (by omega)

theorem split_take_append (s t sep : Bytes) (hsep : sep ≠ []) (n : Nat)
    (hn : n ≤ Count s sep) :
    (Split (s ++ t) sep).elems.take n = (Split s sep).elems.take n := by
  simp only [Count, if_neg hsep] at hn
  simp only [Split, if_neg hsep]
  exact splitLoop_take_append sep hsep _ _ s t n (by omega) (by omega) hn

/-- The candidate parts of a buffer that holds `count + 1` instances of the
boundary are the candidate parts of every extension of the buffer. -/
theorem candidateParts_append (boundary : Bytes) (count : Nat) (s t : Bytes)
    (hb : boundary ≠ []) (h : count + 1 ≤ Count s boundary) :
    candidateParts boundary count (s ++ t) = candidateParts boundary count s := by
  have e := split_take_append s t boundary hb (count + 1) h
  have e2 := congrArg (List.drop 1) e
  rw [List.drop_take, List.drop_take] at e2
  simpa [candidateParts] using e2

/-- Once the buffer holds `count + 1` instances of a non-empty boundary, the
slice `[1:count+1]` is in range and its elements are the candidate parts. -/
theorem framesOfBuffer_candidates (boundary : Bytes) (count : Nat) (buf : Bytes)
    (hb : boundary ≠ []) (h : count + 1 ≤ Count buf boundary) (hc : count + 1 < 2 ^ 64) :
    framesOfBuffer boundary count buf
      = collectFrames (candidateParts boundary count buf) [] := by
  have hw : wrapUint ((count : Int) + 1) = count + 1 := by
    unfold wrapUint
    omega
  obtain ⟨h1, h2⟩ := split_length_eq_count buf boundary hb
  have hin : 1 ≤ count + 1 ∧ count + 1 ≤ (Split buf boundary).cap := by omega
  have hz : (Split buf boundary).cap - (Split buf boundary).elems.length = 0 := by omega
  simp only [framesOfBuffer, sliceFrom1, hw, if_pos hin, hz, List.replicate_zero,
    List.append_nil, candidateParts, List.drop_take, Nat.add_sub_cancel]

/-! ## `StreamFrames`: where reading stops, and chunking -/

/-- Error-free reads that leave the buffer below the threshold are consumed:
their bytes are appended to the buffer and the loop goes on with the reads
after them. -/
theorem readLoopRun_below_threshold (boundary : Bytes) (count : Nat) (h : count + 1 < 2 ^ 63)
    (rs : List ReadResult) (pre : List ReadResult) :
    ∀ (buf : Bytes), (∀ x ∈ pre, x.err = .nil) →
      (∀ k, k < pre.length → Count (buf ++ accumulate (pre.take (k + 1))) boundary < count + 1) →
      readLoopRun boundary count buf (pre ++ rs)
        = readLoopRun boundary count (buf ++ accumulate pre) rs := by
  induction pre with
  | nil => intro buf _ _; simp [accumulate]
  | cons r pre ih =>
    intro buf hnil hlow
    have h0 := hlow 0 (by simp)
    simp only [List.take_succ_cons, List.take_zero, accumulate, List.append_nil,
      zero_add] at h0
    have hr : r.err = .nil := hnil r (by simp)
    have hstep : readLoopRun boundary count buf (r :: (pre ++ rs))
        = readLoopRun boundary count (buf ++ r.data) (pre ++ rs) := by
      simp only [readLoopRun, threshold_eq count h, hr]
      rw [if_neg]
      omega
    rw [List.cons_append, hstep, ih (buf ++ r.data)]
    · simp [accumulate]
    · intro x hx; exact hnil x (by simp [hx])
    · intro k hk
      have := hlow (k + 1) (by simp; omega)
      simpa [accumulate, List.append_assoc] using this

/-- C15: for a non-empty boundary, let the error-free reads `pre` leave the
buffer with fewer than `count + 1` instances of the boundary after each of
them, and let the read `r` bring the buffer (a byte slice, so shorter than
2^63) to at least `count + 1` instances. Then `StreamFrames(count)` makes no
read after `r`: the reads `rest` that could follow are all left unread. What it
returns is the extraction over the segments 1 to `count` of that buffer split
on the boundary, `count` candidate parts, segment 0 left out. -/
theorem streamFrames_stops_at_threshold (boundary : Bytes) (count : Nat)
    (pre : List ReadResult) (r : ReadResult) (rest : List ReadResult)
    (hb : boundary ≠ []) (hpre : ∀ x ∈ pre, x.err = .nil)
    (hlow : ∀ k, k < pre.length →
      Count (accumulate (pre.take (k + 1))) boundary < count + 1)
    (hhit : count + 1 ≤ Count (accumulate (pre ++ [r])) boundary)
    (hfit : (accumulate (pre ++ [r])).length < 2 ^ 63) :
    runStreamFrames count
        (.response 200 (mjpegContentTypePrefix ++ boundary) (pre ++ r :: rest))
      = (collectFrames
            (((Split (accumulate (pre ++ [r])) boundary).elems.drop 1).take count) [],
          rest) ∧
    StreamFrames count (.response 200 (mjpegContentTypePrefix ++ boundary) (pre ++ r :: rest))
      = collectFrames
          (((Split (accumulate (pre ++ [r])) boundary).elems.drop 1).take count) [] ∧
    (((Split (accumulate (pre ++ [r])) boundary).elems.drop 1).take count).length = count := by
  have hle := count_le_length (accumulate (pre ++ [r])) boundary hb
  have hc : count + 1 < 2 ^ 63 := by omega
  have hacc : accumulate (pre ++ [r]) = accumulate pre ++ r.data := by
    rw [accumulate_append]
    simp [accumulate]
  have hlow2 : ∀ k, k < pre.length →
      Count ([] ++ accumulate (pre.take (k + 1))) boundary < count + 1 := by
    intro k hk
    simpa using hlow k hk
  have hthr : (Count ([] ++ accumulate pre ++ r.data) boundary : Int)
      ≥ wrapInt (wrapInt (count : Int) + 1) := by
    rw [threshold_eq count hc, List.nil_append, ← hacc]
    omega
  have hrun : runStreamFrames count
      (.response 200 (mjpegContentTypePrefix ++ boundary) (pre ++ r :: rest))
      = (collectFrames
            (((Split (accumulate (pre ++ [r])) boundary).elems.drop 1).take count) [],
          rest) := by
    have hpfx : (!HasPrefix (mjpegContentTypePrefix ++ boundary) mjpegContentTypePrefix)
        = false := by
      rw [hasPrefix_append]
      rfl
    simp only [runStreamFrames, hpfx, List.drop_left, ne_eq, not_true_eq_false, if_false,
      Bool.false_eq_true]
    rw [readLoopRun_below_threshold boundary count hc (r :: rest) pre [] hpre hlow2]
    simp only [readLoopRun, if_pos hthr]
    rw [List.nil_append, ← hacc,
      framesOfBuffer_candidates boundary count _ hb hhit (by omega)]
    rfl
  refine ⟨hrun, ?_, ?_⟩
  · simp only [StreamFrames, hrun]
  · obtain ⟨h1, _⟩ := split_length_eq_count (accumulate (pre ++ [r])) boundary hb
    simp only [List.length_take, List.length_drop, h1]
    omega

/-- C15 (witness): the second read completes the third boundary for
`count = 2`; the third read, a failing one, is left unread, and the preamble
`junk` before the first boundary is no candidate part. -/
theorem streamFrames_stops_at_threshold_witness :
    runStreamFrames 2 (.response 200 (mjpegContentTypePrefix ++ lit "BOUNDARY")
        ([⟨lit "junkBOUNDARY\r\nContent-length: 3\r\n\r\nabc\r\nBOUNDARY\r\nContent-len", .nil⟩]
          ++ ⟨lit "gth: 2\r\n\r\nde\r\nBOUNDARY\r\nContent-", .nil⟩ :: [⟨[], .other⟩]))
      = (.ok [lit "abc", lit "de"], [⟨[], .other⟩]) ∧
    ((Split
        (accumulate ([⟨lit "junkBOUNDARY\r\nContent-length: 3\r\n\r\nabc\r\nBOUNDARY\r\nContent-len", .nil⟩]
          ++ [⟨lit "gth: 2\r\n\r\nde\r\nBOUNDARY\r\nContent-", .nil⟩]))
        (lit "BOUNDARY")).elems.drop 1).take 2
      = [lit "\r\nContent-length: 3\r\n\r\nabc\r\n", lit "\r\nContent-length: 2\r\n\r\nde\r\n"] ∧
    StreamFrames 2 (.response 200 (mjpegContentTypePrefix ++ lit "BOUNDARY")
        ([⟨lit "junkBOUNDARY\r\nContent-length: 3\r\n\r\nabc\r\nBOUNDARY\r\nContent-len", .nil⟩]
          ++ ⟨lit "gth: 2\r\n\r\nde\r\nBOUNDARY\r\nContent-", .nil⟩ :: [⟨[], .other⟩]))
      = collectFrames
          (((Split
            (accumulate ([⟨lit "junkBOUNDARY\r\nContent-length: 3\r\n\r\nabc\r\nBOUNDARY\r\nContent-len", .nil⟩]
              ++ [⟨lit "gth: 2\r\n\r\nde\r\nBOUNDARY\r\nContent-", .nil⟩]))
            (lit "BOUNDARY")).elems.drop 1).take 2) [] :=
  ⟨by decide, by decide,
    (streamFrames_stops_at_threshold (lit "BOUNDARY") 2
      [⟨lit "junkBOUNDARY\r\nContent-length: 3\r\n\r\nabc\r\nBOUNDARY\r\nContent-len", .nil⟩]
      ⟨lit "gth: 2\r\n\r\nde\r\nBOUNDARY\r\nContent-", .nil⟩ [⟨[], .other⟩]
      (by decide) (by decide) (by decide) (by decide) (by decide)).2.1⟩

/-- For a count below 2^63 - 1 and a non-empty boundary, the loop over
error-free reads that end with end-of-stream returns the one-shot result on
the bytes that the reads add up to. -/
theorem readLoop_oneShot (boundary : Bytes) (count : Nat) (hb : boundary ≠ [])
    (hc : count + 1 < 2 ^ 63) (last : ReadResult) (hl : last.err = .EOF)
    (pre : List ReadResult) :
    ∀ (buf : Bytes), (∀ x ∈ pre, x.err = .nil) →
      readLoop boundary count buf (pre ++ [last])
        = oneShotFrames boundary count (buf ++ accumulate (pre ++ [last])) := by
  induction pre with
  | nil =>
    intro buf _
    simp only [List.nil_append, accumulate, List.append_nil, readLoop_cons, threshold_eq count hc,
      oneShotFrames, hl]
    by_cases ht : count + 1 ≤ Count (buf ++ last.data) boundary
    · rw [if_pos (by omega), if_pos ht]
      exact framesOfBuffer_candidates boundary count _ hb ht (by omega)
    · rw [if_neg (by omega), if_neg ht]
  | cons r pre ih =>
    intro buf hnil
    have hr : r.err = .nil := hnil r (by simp)
    have hassoc : buf ++ accumulate (r :: pre ++ [last])
        = (buf ++ r.data) ++ accumulate (pre ++ [last]) := by
      simp [accumulate, List.append_assoc]
    rw [hassoc]
    simp only [List.cons_append, readLoop_cons, threshold_eq count hc, hr]
    by_cases ht : count + 1 ≤ Count (buf ++ r.data) boundary
    · have hmono := count_append_mono (buf ++ r.data) (accumulate (pre ++ [last])) boundary hb
      rw [if_pos (by omega)]
      simp only [oneShotFrames]
      rw [if_pos (by omega), candidateParts_append boundary count _ _ hb ht]
      exact framesOfBuffer_candidates boundary count _ hb ht (by omega)
    · rw [if_neg (by omega)]
      exact ih (buf ++ r.data) (fun x hx => hnil x (by simp [hx]))

/-- For a count below 2^63 - 1 and a non-empty boundary, `StreamFrames(count)`
on error-free reads that end with end-of-stream returns the one-shot result on
the whole stream, however the stream is cut into reads. -/
theorem streamFrames_oneShot (boundary : Bytes) (count : Nat) (pre : List ReadResult)
    (last : ReadResult) (hb : boundary ≠ []) (hc : count + 1 < 2 ^ 63)
    (hpre : ∀ x ∈ pre, x.err = .nil) (hl : last.err = .EOF) :
    StreamFrames count (.response 200 (mjpegContentTypePrefix ++ boundary) (pre ++ [last]))
      = oneShotFrames boundary count (accumulate (pre ++ [last])) := by
  rw [streamFrames_response, readLoop_oneShot boundary count hb hc last hl pre [] hpre]
  rfl

/-- Two ways of cutting one stream into error-free reads give one result, for
a count below 2^63 - 1 and a non-empty boundary. -/
theorem streamFrames_chunking (boundary : Bytes) (count : Nat)
    (pre1 pre2 : List ReadResult) (last1 last2 : ReadResult)
    (hb : boundary ≠ []) (hc : count + 1 < 2 ^ 63)
    (hpre1 : ∀ x ∈ pre1, x.err = .nil) (hl1 : last1.err = .EOF)
    (hpre2 : ∀ x ∈ pre2, x.err = .nil) (hl2 : last2.err = .EOF)
    (hsame : accumulate (pre1 ++ [last1]) = accumulate (pre2 ++ [last2])) :
    StreamFrames count (.response 200 (mjpegContentTypePrefix ++ boundary) (pre1 ++ [last1]))
      = StreamFrames count
          (.response 200 (mjpegContentTypePrefix ++ boundary) (pre2 ++ [last2])) := by
  rw [streamFrames_oneShot boundary count pre1 last1 hb hc hpre1 hl1,
    streamFrames_oneShot boundary count pre2 last2 hb hc hpre2 hl2, hsame]

/-- C17 (the code at the failing input): for the largest `uint` as count the
stream `BOUNDARY`, line break, delivered in one read or in two, holds one
instance of the boundary, so the one-shot result is the empty sequence;
`StreamFrames` panics for either division, because `int(count) + 1` is 0 and
the slice `[1:count+1]` is `[1:0]`. -/
theorem streamFrames_maxCount_not_oneShot :
    oneShotFrames (lit "BOUNDARY") 18446744073709551615 (lit "BOUNDARY\r\n") = .ok [] ∧
    accumulate [⟨lit "BOUND", .nil⟩, ⟨lit "ARY\r\n", .EOF⟩] = lit "BOUNDARY\r\n" ∧
    StreamFrames 18446744073709551615
        (.response 200 sampleContentType [⟨lit "BOUNDARY\r\n", .EOF⟩]) = .panic ∧
    StreamFrames 18446744073709551615
        (.response 200 sampleContentType [⟨lit "BOUND", .nil⟩, ⟨lit "ARY\r\n", .EOF⟩])
      = .panic := by
  decide

/-- The slice expression of the extraction is in range whenever the parsed
length is not negative and, added to the length of the part, stays within the
range of `int`: such a part is skipped or yields a frame. -/
theorem extractPart_total_of_nonneg (part : Bytes)
    (hpos : 0 ≤ scanContentLength (Split part (lit "\n")).elems)
    (hfit : (part.length : Int) + scanContentLength (Split part (lit "\n")).elems < 2 ^ 63) :
    extractPart part ≠ .panic := by
  intro h
  simp only [extractPart] at h
  split at h
  · cases h
  · split at h
    · cases h
    · rename_i s hs
      have hb := (index_some_split part _ s hs).2
      have h3 : (lit "\n\r\n").length = 3 := rfl
      rw [h3] at hb
      split at h
      · cases h
      · split at h
        · cases h
        · rename_i hlt hle
          apply hle
          unfold wrapInt
          omega

end AutoGo
